import Mathlib

/-!
# Verification of the paya GPU resource registry and frame lifecycle

A shallow embedding of the core data structures and operations of the
paya crate, together with proofs of the specified properties.

Conventions of the embedding:
- machine integers are modelled as Nat; where the source reduces a value
  (the u16 slot version is reduced mod u16::MAX on every bump) the model
  applies the same reduction, so Nat arithmetic coincides with the machine
  arithmetic of the source;
- usize::MAX, the free-list sentinel of the source, is the concrete Nat
  SENTINEL = 2^64 - 1;
- code paths that panic in the source (out-of-bounds indexing, the
  let-else panics of insert_resource and remove_resource, Vec capacity
  overflow) are modelled as Option.none;
- slot indices are kept as Nat: the source casts them through u32, which
  is the identity for every arena below 2^32 entries (a Vec of entries
  at 16+ bytes each cannot reach that count within the isize::MAX
  allocation limit times the intended MAX_BUFFERS/MAX_IMAGES sizing).
-/

namespace Paya

/-- usize::MAX, used by the source as the free-list sentinel. -/
def SENTINEL : Nat := 2 ^ 64 - 1

/-- u16::MAX = 65535, the modulus the source applies to slot versions in
insert_resource: version = (version + 1) % u16::MAX. -/
def U16MAX : Nat := 65535

/-- gpu_resources.rs: GpuResourceId { index: u32, version: u16 }. -/
structure GpuResourceId where
  index : Nat
  version : Nat
  deriving DecidableEq, Repr

/-- gpu_resources.rs: ResourceEntry<T> = Occupied(T) | Free(usize). -/
inductive ResourceEntry (T : Type) where
  | occupied : T → ResourceEntry T
  | free : Nat → ResourceEntry T
  deriving DecidableEq, Repr

/-- gpu_resources.rs: ResourceVersionEntry<T> { entry, version: u16 }. -/
structure ResourceVersionEntry (T : Type) where
  entry : ResourceEntry T
  version : Nat
  deriving DecidableEq, Repr

/-- gpu_resources.rs: ResourceSlot<T> { entries: Vec<_>, free_head: usize }. -/
structure ResourceSlot (T : Type) where
  entries : List (ResourceVersionEntry T)
  free_head : Nat
  deriving DecidableEq, Repr

/-- ResourceSlot::new(): one initial Free(usize::MAX) entry at version 0,
free_head = 0. -/
def newResourceSlot (T : Type) : ResourceSlot T :=
  { entries := [{ entry := .free SENTINEL, version := 0 }], free_head := 0 }

/-- The entry discriminant stored at slot i, if i is in bounds. -/
def entryAt {T : Type} (entries : List (ResourceVersionEntry T)) (i : Nat) :
    Option (ResourceEntry T) :=
  (entries.get? i).map (·.entry)

/-- Replace only the `entry` field at position i (the source mutates
versioned_entry.entry in place, leaving the version untouched). Out of
bounds leaves the list unchanged; callers establish the bound. -/
def setEntryAt {T : Type} (entries : List (ResourceVersionEntry T)) (i : Nat)
    (e : ResourceEntry T) : List (ResourceVersionEntry T) :=
  match entries.get? i with
  | none => entries
  | some ve => entries.set i { ve with entry := e }

/-- ResourceSlot::insert_resource. The append branch models Vec::push's
capacity-overflow panic as none once the length would pass usize::MAX
(unreachable in practice; it keeps every index below SENTINEL). -/
def insertResource {T : Type} (s : ResourceSlot T) (r : T) :
    Option (ResourceSlot T × GpuResourceId) :=
  if s.free_head = SENTINEL then
    if s.entries.length < SENTINEL then
      some ({ entries := s.entries ++ [{ entry := .occupied r, version := 0 }],
              free_head := s.free_head },
            { index := s.entries.length, version := 0 })
    else none
  else
    match s.entries.get? s.free_head with
    | none => none
    | some ve =>
      match ve.entry with
      | .occupied _ => none
      | .free next =>
        let v := (ve.version + 1) % U16MAX
        some ({ entries := s.entries.set s.free_head { entry := .occupied r, version := v },
                free_head := next },
              { index := s.free_head, version := v })

/-- ResourceSlot::get_resource: bounds check, version check, occupancy
check, in the source's order. -/
def getResource {T : Type} (s : ResourceSlot T) (id : GpuResourceId) : Option T :=
  match s.entries.get? id.index with
  | none => none
  | some ve =>
    if ve.version ≠ id.version then none
    else
      match ve.entry with
      | .occupied r => some r
      | .free _ => none

/-- The splice loop of ResourceSlot::remove_resource: walk the free list
from p until a link next with next > idx is found, then splice idx in
between. The fuel argument bounds the walk; on the ascending free lists
of every reachable arena a fuel of idx + 1 always suffices (each step
strictly increases p while p stays at most idx), so none models only the
panics and the divergence of the source loop on corrupt states. -/
def spliceWalk {T : Type} (entries : List (ResourceVersionEntry T)) (idx : Nat) :
    Nat → Nat → Option (List (ResourceVersionEntry T))
  | p, 0 => if p = SENTINEL then some entries else none
  | p, fuel + 1 =>
    if p = SENTINEL then some entries
    else
      match entryAt entries p with
      | none => none
      | some (.occupied _) => none
      | some (.free next) =>
        if idx < next then
          some (setEntryAt (setEntryAt entries p (.free idx)) idx (.free next))
        else spliceWalk entries idx next fuel

/-- ResourceSlot::remove_resource: bounds check, version check, take the
occupied value out (leaving Free(usize::MAX)), then re-insert the slot
into the free list in ascending index order. -/
def removeResource {T : Type} (s : ResourceSlot T) (id : GpuResourceId) :
    Option (ResourceSlot T × T) :=
  match s.entries.get? id.index with
  | none => none
  | some ve =>
    if ve.version ≠ id.version then none
    else
      match ve.entry with
      | .free _ => none
      | .occupied r =>
        if id.index < s.free_head then
          some ({ entries := setEntryAt s.entries id.index (.free s.free_head),
                  free_head := id.index }, r)
        else
          match spliceWalk (setEntryAt s.entries id.index (.free SENTINEL)) id.index
              s.free_head (id.index + 1) with
          | none => none
          | some es => some ({ entries := es, free_head := s.free_head }, r)

/-! ## Arena operation sequences -/

/-- An arena operation: insert_resource with a payload, or remove_resource
with a handle. -/
inductive ArenaOp (T : Type) where
  | insert : T → ArenaOp T
  | remove : GpuResourceId → ArenaOp T
  deriving DecidableEq, Repr

/-- Apply one operation; none if the source would panic. -/
def applyArenaOp {T : Type} (s : ResourceSlot T) : ArenaOp T → Option (ResourceSlot T)
  | .insert r => (insertResource s r).map Prod.fst
  | .remove id => (removeResource s id).map Prod.fst

/-- Run a sequence of operations; none as soon as one panics. -/
def runArenaOps {T : Type} (s : ResourceSlot T) : List (ArenaOp T) → Option (ResourceSlot T)
  | [] => some s
  | op :: ops =>
    match applyArenaOp s op with
    | none => none
    | some s2 => runArenaOps s2 ops

/-- Run a sequence of operations, logging every handle returned by an
insert, in order. -/
def runArenaOpsLog {T : Type} (s : ResourceSlot T) (log : List GpuResourceId) :
    List (ArenaOp T) → Option (ResourceSlot T × List GpuResourceId)
  | [] => some (s, log)
  | .insert r :: ops =>
    match insertResource s r with
    | none => none
    | some (s2, id) => runArenaOpsLog s2 (log ++ [id]) ops
  | .remove id :: ops =>
    match removeResource s id with
    | none => none
    | some (s2, _) => runArenaOpsLog s2 log ops

/-- Walk the free list from head i following Free.next links until the
sentinel, collecting the slot indices visited. Fuel bounds the walk. -/
def walkFreeList {T : Type} (entries : List (ResourceVersionEntry T)) :
    Nat → Nat → Option (List Nat)
  | i, 0 => if i = SENTINEL then some [] else none
  | i, fuel + 1 =>
    if i = SENTINEL then some []
    else
      match entryAt entries i with
      | some (.free next) => (walkFreeList entries next fuel).map (i :: ·)
      | _ => none

/-- The free list from head i consists of the node indices l: each node is
in bounds, holds a Free link to the next node, and links strictly upward;
the chain ends at the sentinel. -/
inductive FreeChain {T : Type} (entries : List (ResourceVersionEntry T)) :
    Nat → List Nat → Prop where
  | nil : FreeChain entries SENTINEL []
  | cons {i next : Nat} {l : List Nat}
      (hlen : i < entries.length)
      (hentry : entryAt entries i = some (.free next))
      (hlt : i < next)
      (hchain : FreeChain entries next l) :
      FreeChain entries i (i :: l)

/-! ## Helper lemmas on setEntryAt and entryAt -/

theorem length_setEntryAt {T : Type} (l : List (ResourceVersionEntry T)) (i : Nat)
    (e : ResourceEntry T) : (setEntryAt l i e).length = l.length := by
  unfold setEntryAt
  cases h : l.get? i with
  | none => rfl
  | some ve => simp

theorem get?_setEntryAt_ne {T : Type} {l : List (ResourceVersionEntry T)} {i j : Nat}
    (e : ResourceEntry T) (h : i ≠ j) : (setEntryAt l i e).get? j = l.get? j := by
  unfold setEntryAt
  cases hg : l.get? i with
  | none => rfl
  | some ve => exact List.get?_set_ne _ _ h

theorem entryAt_setEntryAt_ne {T : Type} {l : List (ResourceVersionEntry T)} {i j : Nat}
    (e : ResourceEntry T) (h : i ≠ j) :
    entryAt (setEntryAt l i e) j = entryAt l j := by
  unfold entryAt
  rw [get?_setEntryAt_ne e h]

theorem get?_eq_some_of_lt {T : Type} {l : List (ResourceVersionEntry T)} {i : Nat}
    (h : i < l.length) : ∃ ve, l.get? i = some ve := by
  cases hg : l.get? i with
  | none => exact absurd (List.get?_eq_none.mp hg) (by omega)
  | some ve => exact ⟨ve, rfl⟩

theorem entryAt_setEntryAt_self {T : Type} {l : List (ResourceVersionEntry T)} {i : Nat}
    (e : ResourceEntry T) (h : i < l.length) :
    entryAt (setEntryAt l i e) i = some e := by
  obtain ⟨ve, hve⟩ := get?_eq_some_of_lt h
  unfold entryAt setEntryAt
  rw [hve, List.get?_set_eq, hve]
  rfl

theorem version_setEntryAt {T : Type} (l : List (ResourceVersionEntry T)) (i j : Nat)
    (e : ResourceEntry T) :
    ((setEntryAt l i e).get? j).map (·.version) = (l.get? j).map (·.version) := by
  unfold setEntryAt
  cases hg : l.get? i with
  | none => rfl
  | some ve =>
    by_cases hij : i = j
    · subst hij
      rw [List.get?_set_eq, hg]
      rfl
    · rw [List.get?_set_ne _ _ hij]

/-! ## FreeChain lemmas -/

/-- Chains consist of strictly increasing consecutive links. -/
theorem freeChain_chain' {T : Type} {entries : List (ResourceVersionEntry T)}
    {i : Nat} {l : List Nat} (hc : FreeChain entries i l) :
    List.Chain' (· < ·) l := by
  induction hc with
  | nil => exact List.chain'_nil
  | cons hlen hentry hlt hchain ih =>
    cases hchain with
    | nil => exact List.chain'_singleton _
    | cons h1 h2 h3 h4 => exact List.Chain'.cons hlt ih

/-- Every node of a chain is at least the head. -/
theorem freeChain_ge {T : Type} {entries : List (ResourceVersionEntry T)}
    {i : Nat} {l : List Nat} (hc : FreeChain entries i l) :
    ∀ x ∈ l, i ≤ x := by
  induction hc with
  | nil => intro x hx; cases hx
  | cons hlen hentry hlt hchain ih =>
    intro x hx
    rcases List.mem_cons.mp hx with h | h
    · omega
    · have := ih x h; omega

/-- Every node of a chain is in bounds. -/
theorem freeChain_lt_length {T : Type} {entries : List (ResourceVersionEntry T)}
    {i : Nat} {l : List Nat} (hc : FreeChain entries i l) :
    ∀ x ∈ l, x < entries.length := by
  induction hc with
  | nil => intro x hx; cases hx
  | cons hlen hentry hlt hchain ih =>
    intro x hx
    rcases List.mem_cons.mp hx with h | h
    · omega
    · exact ih x h

/-- A chain survives any modification that does not grow shorter and keeps
the entries of its nodes. -/
theorem freeChain_congr {T : Type} {entries entries2 : List (ResourceVersionEntry T)}
    {i : Nat} {l : List Nat} (hc : FreeChain entries i l)
    (hlen : entries.length ≤ entries2.length)
    (hagree : ∀ x ∈ l, entryAt entries2 x = entryAt entries x) :
    FreeChain entries2 i l := by
  induction hc with
  | nil => exact .nil
  | cons hlenn hentry hlt hchain ih =>
    refine .cons (by omega) ?_ hlt (ih (fun x hx => hagree x (List.mem_cons_of_mem _ hx)))
    rw [hagree _ (List.mem_cons_self _ _)]
    exact hentry

/-- An index holding an Occupied entry is never a chain node. -/
theorem freeChain_not_mem_of_occupied {T : Type} {entries : List (ResourceVersionEntry T)}
    {i : Nat} {l : List Nat} {j : Nat} {r : T} (hc : FreeChain entries i l)
    (hj : entryAt entries j = some (.occupied r)) : j ∉ l := by
  induction hc with
  | nil => exact List.not_mem_nil j
  | cons hlen hentry hlt hchain ih =>
    intro hmem
    rcases List.mem_cons.mp hmem with h | h
    · subst h; rw [hj] at hentry; simp at hentry
    · exact ih h

/-- A nonempty chain from head i has at most entries.length - i nodes. -/
theorem freeChain_length_bound {T : Type} {entries : List (ResourceVersionEntry T)}
    {i : Nat} {l : List Nat} (hc : FreeChain entries i l) :
    l = [] ∨ l.length + i ≤ entries.length := by
  induction hc with
  | nil => exact Or.inl rfl
  | cons hlen hentry hlt hchain ih =>
    refine Or.inr ?_
    rcases ih with h | h
    · subst h
      simp only [List.length_cons, List.length_nil]
      omega
    · simp only [List.length_cons]
      omega

/-! ## Inversion lemmas for the arena operations -/

/-- Characterise a successful insert_resource: either the append branch
(free_head is the sentinel) or the pop branch. -/
theorem insertResource_inversion {T : Type} {s : ResourceSlot T} {r : T}
    {s2 : ResourceSlot T} {id : GpuResourceId}
    (h : insertResource s r = some (s2, id)) :
    (s.free_head = SENTINEL ∧ s.entries.length < SENTINEL ∧
      s2 = { entries := s.entries ++ [{ entry := .occupied r, version := 0 }],
             free_head := s.free_head } ∧
      id = { index := s.entries.length, version := 0 }) ∨
    (s.free_head ≠ SENTINEL ∧ ∃ ve next, s.entries.get? s.free_head = some ve ∧
      ve.entry = ResourceEntry.free next ∧
      s2 = { entries := s.entries.set s.free_head
               { entry := .occupied r, version := (ve.version + 1) % U16MAX },
             free_head := next } ∧
      id = { index := s.free_head, version := (ve.version + 1) % U16MAX }) := by
  unfold insertResource at h
  split at h
  next hfh =>
    split at h
    next hl =>
      injection h with h2
      injection h2 with h3 h4
      exact Or.inl ⟨hfh, hl, h3.symm, h4.symm⟩
    next hl => cases h
  next hfh =>
    refine Or.inr ⟨hfh, ?_⟩
    split at h
    next hget => cases h
    next ve hget =>
      split at h
      next a hocc => cases h
      next nx hfree =>
        simp only [Option.some.injEq, Prod.mk.injEq] at h
        exact ⟨ve, nx, hget, hfree, h.1.symm, h.2.symm⟩

/-- Characterise a successful remove_resource: the handle addressed an
occupied entry with matching version, and the freed slot was spliced back
into the free list by one of the two branches. -/
theorem removeResource_inversion {T : Type} {s : ResourceSlot T} {id : GpuResourceId}
    {s2 : ResourceSlot T} {r : T}
    (h : removeResource s id = some (s2, r)) :
    ∃ ve, s.entries.get? id.index = some ve ∧ ve.version = id.version ∧
      ve.entry = ResourceEntry.occupied r ∧
      ((id.index < s.free_head ∧
         s2 = { entries := setEntryAt s.entries id.index (.free s.free_head),
                free_head := id.index }) ∨
       (¬ id.index < s.free_head ∧
         spliceWalk (setEntryAt s.entries id.index (.free SENTINEL)) id.index
             s.free_head (id.index + 1) = some s2.entries ∧
         s2.free_head = s.free_head)) := by
  unfold removeResource at h
  split at h
  next hget => cases h
  next ve hget =>
    split at h
    next hv => cases h
    next hv =>
      split at h
      next n hfree => cases h
      next r0 hocc =>
        refine ⟨ve, hget, by omega, ?_⟩
        split at h
        next hlt =>
          simp only [Option.some.injEq, Prod.mk.injEq] at h
          rw [hocc, h.2]
          exact ⟨rfl, Or.inl ⟨hlt, h.1.symm⟩⟩
        next hlt =>
          split at h
          next hw => cases h
          next es hw =>
            simp only [Option.some.injEq, Prod.mk.injEq] at h
            rw [hocc, h.2]
            refine ⟨rfl, Or.inr ⟨hlt, ?_, ?_⟩⟩
            · rw [← h.1]
              exact hw
            · rw [← h.1]

/-! ## From chains to the executable walk -/

/-- The executable walk follows a chain whenever it has enough fuel. -/
theorem freeChain_walkFreeList {T : Type} {entries : List (ResourceVersionEntry T)}
    (hsent : entries.length ≤ SENTINEL) {i : Nat} {l : List Nat}
    (hc : FreeChain entries i l) :
    ∀ fuel, l.length ≤ fuel → walkFreeList entries i fuel = some l := by
  induction hc with
  | nil =>
    intro fuel _
    cases fuel with
    | zero => simp [walkFreeList]
    | succ f => simp [walkFreeList]
  | cons hlen hentry hlt hchain ih =>
    rename_i j nxt l2
    intro fuel hf
    cases fuel with
    | zero => simp at hf
    | succ f =>
      have hne : j ≠ SENTINEL := by omega
      rw [walkFreeList]
      simp only [if_neg hne, hentry]
      rw [ih f (by simpa using hf)]
      rfl

/-- Specification of the splice loop on an ascending chain whose nodes
all lie at or below idx until the splice point: it succeeds, returns a
list of the same length, yields an ascending chain again, and leaves all
entries strictly below the walk's start untouched. -/
theorem spliceWalk_spec {T : Type} {entries : List (ResourceVersionEntry T)} {idx : Nat}
    (hsent : entries.length ≤ SENTINEL)
    (hidxlen : idx < entries.length)
    {p : Nat} {l : List Nat} (hc : FreeChain entries p l) :
    ∀ fuel, p ≤ idx → idx ∉ l → idx + 1 - p ≤ fuel →
    ∃ es l2, spliceWalk entries idx p fuel = some es ∧ FreeChain es p l2 ∧
      es.length = entries.length ∧ ∀ x, x < p → entryAt es x = entryAt entries x := by
  induction hc with
  | nil =>
    intro fuel hple _ _
    exact absurd hple (by omega)
  | cons hlen hentry hlt hchain ih =>
    rename_i i next l
    intro fuel hple hnotmem hfuel
    have hii : i ≠ idx := fun he => hnotmem (he ▸ List.mem_cons_self _ _)
    have hiidx : i < idx := by omega
    have hnotmem2 : idx ∉ l := fun hm => hnotmem (List.mem_cons_of_mem _ hm)
    have hine : i ≠ SENTINEL := by omega
    cases fuel with
    | zero => omega
    | succ f =>
      by_cases hnext : idx < next
      · have hstep : spliceWalk entries idx i (f + 1) =
            some (setEntryAt (setEntryAt entries i (.free idx)) idx (.free next)) := by
          rw [spliceWalk]
          simp only [if_neg hine, hentry, if_pos hnext]
        refine ⟨_, i :: idx :: l, hstep, ?_, ?_, ?_⟩
        · have hnodes : ∀ x ∈ l, next ≤ x := freeChain_ge hchain
          refine FreeChain.cons ?_ ?_ hiidx (FreeChain.cons ?_ ?_ hnext ?_)
          · rw [length_setEntryAt, length_setEntryAt]; omega
          · rw [entryAt_setEntryAt_ne _ (by omega),
              entryAt_setEntryAt_self _ (by omega)]
          · rw [length_setEntryAt, length_setEntryAt]; omega
          · rw [entryAt_setEntryAt_self _ (by rw [length_setEntryAt]; omega)]
          · refine freeChain_congr hchain (by rw [length_setEntryAt, length_setEntryAt])
              (fun x hx => ?_)
            have hxnext := hnodes x hx
            rw [entryAt_setEntryAt_ne _ (by omega), entryAt_setEntryAt_ne _ (by omega)]
        · rw [length_setEntryAt, length_setEntryAt]
        · intro x hx
          rw [entryAt_setEntryAt_ne _ (by omega), entryAt_setEntryAt_ne _ (by omega)]
      · have hstep : spliceWalk entries idx i (f + 1) = spliceWalk entries idx next f := by
          rw [spliceWalk]
          simp only [if_neg hine, hentry, if_neg hnext]
        have hnextle : next ≤ idx := by omega
        obtain ⟨es, l2, heq, hchain2, hleneq, hagree⟩ :=
          ih f hnextle hnotmem2 (by omega)
        refine ⟨es, i :: l2, by rw [hstep]; exact heq, ?_, hleneq, ?_⟩
        · refine FreeChain.cons (by omega) ?_ hlt hchain2
          rw [hagree i (by omega)]
          exact hentry
        · intro x hx
          exact hagree x (by omega)

/-! ## The arena invariant and its preservation -/

/-- The arena invariant: the entry list never reaches the sentinel index,
and the free list forms an ascending chain ending at the sentinel. -/
def ArenaInv {T : Type} (s : ResourceSlot T) : Prop :=
  s.entries.length ≤ SENTINEL ∧ ∃ l, FreeChain s.entries s.free_head l

theorem arenaInv_new (T : Type) : ArenaInv (newResourceSlot T) := by
  refine ⟨?_, [0], ?_⟩
  · show (1 : Nat) ≤ SENTINEL
    decide
  · show FreeChain (newResourceSlot T).entries 0 [0]
    refine FreeChain.cons ?_ rfl ?_ FreeChain.nil
    · show (0 : Nat) < 1
      decide
    · show (0 : Nat) < SENTINEL
      decide

theorem insertResource_inv {T : Type} {s : ResourceSlot T} {r : T}
    {s2 : ResourceSlot T} {id : GpuResourceId}
    (h : insertResource s r = some (s2, id)) (hinv : ArenaInv s) : ArenaInv s2 := by
  obtain ⟨hlen, l, hc⟩ := hinv
  rcases insertResource_inversion h with ⟨hfh, hl, rfl, rfl⟩ | ⟨hfh, ve, next, hget, hfree, rfl, rfl⟩
  · refine ⟨?_, [], ?_⟩
    · show (s.entries ++
          [({ entry := ResourceEntry.occupied r, version := 0 } : ResourceVersionEntry T)]).length
          ≤ SENTINEL
      rw [List.length_append]
      simp only [List.length_cons, List.length_nil]
      omega
    · show FreeChain _ s.free_head []
      rw [hfh]
      exact FreeChain.nil
  · generalize hfh2 : s.free_head = fh at hc
    cases hc with
    | nil => exact absurd hfh2 hfh
    | cons hlenn hentry hlt hchain =>
      rename_i nxt0 l2
      subst hfh2
      have hn : nxt0 = next := by
        have h2 : entryAt s.entries s.free_head = some (ResourceEntry.free next) := by
          unfold entryAt
          rw [hget]
          exact congrArg some hfree
        rw [h2] at hentry
        injection hentry with h3
        injection h3 with h4
        exact h4.symm
      rw [hn] at hchain hlt
      refine ⟨?_, l2, ?_⟩
      · show (s.entries.set s.free_head _).length ≤ SENTINEL
        simpa using hlen
      · show FreeChain (s.entries.set s.free_head _) next l2
        refine freeChain_congr hchain (by simp) (fun x hx => ?_)
        have hxge := freeChain_ge hchain x hx
        unfold entryAt
        rw [List.get?_set_ne _ _ (by omega)]

theorem removeResource_inv {T : Type} {s : ResourceSlot T} {id : GpuResourceId}
    {s2 : ResourceSlot T} {r : T}
    (h : removeResource s id = some (s2, r)) (hinv : ArenaInv s) : ArenaInv s2 := by
  obtain ⟨hlen, l, hc⟩ := hinv
  obtain ⟨ve, hget, hver, hocc, hcase⟩ := removeResource_inversion h
  have hidxlen : id.index < s.entries.length := (List.get?_eq_some.mp hget).1
  have hoccAt : entryAt s.entries id.index = some (.occupied r) := by
    unfold entryAt
    rw [hget]
    exact congrArg some hocc
  have hnotmem : id.index ∉ l := freeChain_not_mem_of_occupied hc hoccAt
  rcases hcase with ⟨hlt, rfl⟩ | ⟨hlt, hw, hfh⟩
  · refine ⟨?_, id.index :: l, ?_⟩
    · show (setEntryAt s.entries id.index (.free s.free_head)).length ≤ SENTINEL
      rw [length_setEntryAt]
      exact hlen
    · show FreeChain (setEntryAt s.entries id.index (.free s.free_head)) id.index
        (id.index :: l)
      have hchain2 : FreeChain (setEntryAt s.entries id.index (.free s.free_head))
          s.free_head l := by
        refine freeChain_congr hc (by rw [length_setEntryAt]) (fun x hx => ?_)
        have hxge := freeChain_ge hc x hx
        exact entryAt_setEntryAt_ne _ (by omega)
      exact FreeChain.cons (by rw [length_setEntryAt]; omega)
        (entryAt_setEntryAt_self _ hidxlen) hlt hchain2
  · have hchain0 : FreeChain (setEntryAt s.entries id.index (.free SENTINEL))
        s.free_head l := by
      refine freeChain_congr hc (by rw [length_setEntryAt]) (fun x hx => ?_)
      refine entryAt_setEntryAt_ne _ (fun he => ?_)
      exact hnotmem (he ▸ hx)
    obtain ⟨es, l2, heq, hchain2, hleneq, _⟩ :=
      spliceWalk_spec (by rw [length_setEntryAt]; exact hlen)
        (by rw [length_setEntryAt]; exact hidxlen) hchain0 (id.index + 1)
        (by omega) hnotmem (by omega)
    rw [heq] at hw
    injection hw with hw2
    refine ⟨?_, l2, ?_⟩
    · cases s2 with
      | mk e2 f2 =>
        simp only at hw2
        subst hw2
        rw [hleneq, length_setEntryAt]
        exact hlen
    · cases s2 with
      | mk e2 f2 =>
        simp only at hw2 hfh
        subst hw2
        subst hfh
        exact hchain2

theorem applyArenaOp_inv {T : Type} {s s2 : ResourceSlot T} {op : ArenaOp T}
    (h : applyArenaOp s op = some s2) (hinv : ArenaInv s) : ArenaInv s2 := by
  cases op with
  | insert r =>
    simp only [applyArenaOp, Option.map_eq_some'] at h
    obtain ⟨⟨s1, id⟩, hi, heq⟩ := h
    exact heq ▸ insertResource_inv hi hinv
  | remove id =>
    simp only [applyArenaOp, Option.map_eq_some'] at h
    obtain ⟨⟨s1, r⟩, hi, heq⟩ := h
    exact heq ▸ removeResource_inv hi hinv

theorem runArenaOps_inv {T : Type} :
    ∀ (ops : List (ArenaOp T)) (s s2 : ResourceSlot T),
    runArenaOps s ops = some s2 → ArenaInv s → ArenaInv s2 := by
  intro ops
  induction ops with
  | nil =>
    intro s s2 h hinv
    injection h with h2
    exact h2 ▸ hinv
  | cons op rest ih =>
    intro s s2 h hinv
    unfold runArenaOps at h
    cases ha : applyArenaOp s op with
    | none =>
      simp only [ha] at h
      exact Option.noConfusion h
    | some s1 =>
      simp only [ha] at h
      exact ih s1 s2 h (applyArenaOp_inv ha hinv)

/-- C3. For every sequence of valid insert and remove operations starting
from a fresh arena, walking the free list from free_head along the
Free.next links until the sentinel yields slot indices in strictly
ascending order. -/
theorem free_list_strictly_ascending (ops : List (ArenaOp Unit)) (s : ResourceSlot Unit)
    (h : runArenaOps (newResourceSlot Unit) ops = some s) :
    ∃ l, walkFreeList s.entries s.free_head (s.entries.length + 1) = some l ∧
      List.Pairwise (· < ·) l := by
  obtain ⟨hlen, l, hc⟩ := runArenaOps_inv ops _ s h (arenaInv_new Unit)
  refine ⟨l, ?_, ?_⟩
  · refine freeChain_walkFreeList hlen hc _ ?_
    rcases freeChain_length_bound hc with hnil | hb
    · subst hnil; simp
    · omega
  · exact List.chain'_iff_pairwise.mp (freeChain_chain' hc)

/-- Witness for C3 at the arena-churn scenario of the specification. -/
theorem free_list_strictly_ascending_witness :
    ∃ l, walkFreeList
        ([{ entry := .occupied (), version := 1 },
          { entry := .free SENTINEL, version := 0 },
          { entry := .occupied (), version := 0 }] :
            List (ResourceVersionEntry Unit)) 1 4 = some l ∧
      List.Pairwise (· < ·) l :=
  free_list_strictly_ascending
    [ .insert (), .insert (), .insert (), .remove { index := 1, version := 0 } ]
    { entries := [{ entry := .occupied (), version := 1 },
                  { entry := .free SENTINEL, version := 0 },
                  { entry := .occupied (), version := 0 }],
      free_head := 1 }
    (by decide)

/-! ## Single-slot churn: repeated reuse of slot 0 -/

/-- Appending operation lists composes the logged runs. -/
theorem runLog_append {T : Type} (ops1 : List (ArenaOp T)) :
    ∀ (s : ResourceSlot T) (log : List GpuResourceId) (ops2 : List (ArenaOp T)),
    runArenaOpsLog s log (ops1 ++ ops2) =
      (runArenaOpsLog s log ops1).bind (fun p => runArenaOpsLog p.1 p.2 ops2) := by
  induction ops1 with
  | nil =>
    intro s log ops2
    rfl
  | cons op rest ih =>
    intro s log ops2
    cases op with
    | insert r =>
      show runArenaOpsLog s log (.insert r :: (rest ++ ops2)) = _
      rw [runArenaOpsLog]
      cases hi : insertResource s r with
      | none =>
        simp only [runArenaOpsLog, hi]
        rfl
      | some p =>
        obtain ⟨s2, id⟩ := p
        simp only [runArenaOpsLog, hi]
        exact ih s2 (log ++ [id]) ops2
    | remove id =>
      show runArenaOpsLog s log (.remove id :: (rest ++ ops2)) = _
      rw [runArenaOpsLog]
      cases hi : removeResource s id with
      | none =>
        simp only [runArenaOpsLog, hi]
        rfl
      | some p =>
        obtain ⟨s2, r⟩ := p
        simp only [runArenaOpsLog, hi]
        exact ih s2 log ops2

/-- Insert into a one-slot arena whose slot 0 is free: the pop branch bumps
the stored version by one mod u16::MAX and hands it out. -/
theorem insertResource_singleSlot (v : Nat) :
    insertResource
      ({ entries := [{ entry := .free SENTINEL, version := v }], free_head := 0 } :
        ResourceSlot Unit) () =
    some ({ entries := [{ entry := .occupied (), version := (v + 1) % U16MAX }],
            free_head := SENTINEL },
          { index := 0, version := (v + 1) % U16MAX }) := by
  unfold insertResource
  rw [if_neg (by decide : ¬ (0 : Nat) = SENTINEL)]
  rfl

/-- Remove the only occupant of a one-slot arena: slot 0 becomes the new
free head, its version untouched. -/
theorem removeResource_singleSlot (v : Nat) :
    removeResource
      ({ entries := [{ entry := .occupied (), version := v }], free_head := SENTINEL } :
        ResourceSlot Unit) { index := 0, version := v } =
    some ({ entries := [{ entry := .free SENTINEL, version := v }], free_head := 0 }, ()) := by
  simp [removeResource, setEntryAt, SENTINEL]

/-- m rounds of insert-then-remove on the fresh single-slot arena; round
number m removes the handle the round's insert produced. -/
def churnOps : Nat → List (ArenaOp Unit)
  | 0 => []
  | m + 1 => churnOps m ++
      [.insert (), .remove { index := 0, version := (m + 1) % U16MAX }]

/-- Closed form of the churn run: after m rounds the single slot is free at
version m mod u16::MAX, and the insert of round k returned the handle
(0, (k+1) mod u16::MAX). -/
theorem churn_closed_form : ∀ m, runArenaOpsLog (newResourceSlot Unit) [] (churnOps m) =
    some ({ entries := [{ entry := .free SENTINEL, version := m % U16MAX }], free_head := 0 },
          (List.range m).map (fun k => { index := 0, version := (k + 1) % U16MAX })) := by
  intro m
  induction m with
  | zero => rfl
  | succ m ih =>
    have hv : (m % U16MAX + 1) % U16MAX = (m + 1) % U16MAX := Nat.mod_add_mod m U16MAX 1
    rw [churnOps, runLog_append, ih]
    rw [Option.some_bind]
    show runArenaOpsLog _ _ (.insert () :: [.remove _]) = _
    rw [runArenaOpsLog, insertResource_singleSlot (m % U16MAX)]
    show runArenaOpsLog _ _ [.remove _] = _
    rw [hv]
    rw [runArenaOpsLog, removeResource_singleSlot ((m + 1) % U16MAX)]
    show some (_, _) = _
    rw [List.range_succ, List.map_append]
    rfl

/-! ## C4: the arena-churn scenario -/

/-- C4 counterexample: the fresh arena holds one initial Free slot, so the
first insert takes the pop branch and bumps the version to 1; the three
inserts return (0,1),(1,0),(2,0), not (0,0),(1,0),(2,0) as claimed. -/
theorem arena_churn_counterexample :
    (runArenaOpsLog (newResourceSlot Unit) [] [.insert (), .insert (), .insert ()]).map
        Prod.snd =
      some [{ index := 0, version := 1 }, { index := 1, version := 0 },
            { index := 2, version := 0 }] ∧
    ({ index := 0, version := 1 } : GpuResourceId) ≠ { index := 0, version := 0 } := by
  decide

/-- C4 (amended): three consecutive inserts on a fresh arena return
(0,1),(1,0),(2,0); removing the second handle makes the free list [1];
the next insert returns (1,1); get with the stale handle (1,0) fails. -/
theorem arena_churn_scenario :
    runArenaOpsLog (newResourceSlot Unit) [] [.insert (), .insert (), .insert ()] =
      some ({ entries := [{ entry := .occupied (), version := 1 },
                          { entry := .occupied (), version := 0 },
                          { entry := .occupied (), version := 0 }],
              free_head := SENTINEL },
            [{ index := 0, version := 1 }, { index := 1, version := 0 },
             { index := 2, version := 0 }]) ∧
    removeResource ({ entries := [{ entry := .occupied (), version := 1 },
                                  { entry := .occupied (), version := 0 },
                                  { entry := .occupied (), version := 0 }],
                      free_head := SENTINEL } : ResourceSlot Unit)
        { index := 1, version := 0 } =
      some ({ entries := [{ entry := .occupied (), version := 1 },
                          { entry := .free SENTINEL, version := 0 },
                          { entry := .occupied (), version := 0 }],
              free_head := 1 }, ()) ∧
    walkFreeList ([{ entry := .occupied (), version := 1 },
                   { entry := .free SENTINEL, version := 0 },
                   { entry := .occupied (), version := 0 }] :
        List (ResourceVersionEntry Unit)) 1 4 = some [1] ∧
    insertResource ({ entries := [{ entry := .occupied (), version := 1 },
                                  { entry := .free SENTINEL, version := 0 },
                                  { entry := .occupied (), version := 0 }],
                      free_head := 1 } : ResourceSlot Unit) () =
      some ({ entries := [{ entry := .occupied (), version := 1 },
                          { entry := .occupied (), version := 1 },
                          { entry := .occupied (), version := 0 }],
              free_head := SENTINEL },
            { index := 1, version := 1 }) ∧
    getResource ({ entries := [{ entry := .occupied (), version := 1 },
                               { entry := .occupied (), version := 1 },
                               { entry := .occupied (), version := 0 }],
                   free_head := SENTINEL } : ResourceSlot Unit)
        { index := 1, version := 0 } = none := by
  refine ⟨by decide, by decide, by decide, by decide, by decide⟩

/-! ## C5: version increment on Free to Occupied transitions -/

/-- C5 counterexample: the single slot of the churn arena is reachable at
stored version 65534 after 65534 rounds; the next insert stores and
returns version (65534 + 1) % u16::MAX = 0, whereas incrementing modulo
2^16 would give 65535. -/
theorem version_wrap_counterexample :
    runArenaOpsLog (newResourceSlot Unit) [] (churnOps 65534) =
      some ({ entries := [{ entry := .free SENTINEL, version := 65534 }], free_head := 0 },
            (List.range 65534).map (fun k =>
              ({ index := 0, version := (k + 1) % U16MAX } : GpuResourceId))) ∧
    (insertResource ({ entries := [{ entry := .free SENTINEL, version := 65534 }],
                       free_head := 0 } : ResourceSlot Unit) ()).map
        (fun p => p.2.version) = some 0 ∧
    (65534 + 1) % 2 ^ 16 = 65535 := by
  refine ⟨?_, by decide, by decide⟩
  rw [churn_closed_form 65534]
  norm_num [U16MAX]

/-- C5 (amended): whenever insert transitions an existing slot from Free
to Occupied (the pop branch), the stored version becomes
(old + 1) % u16::MAX — modulo 65535, not 2^16, so a slot at version 65534
wraps to 0 — and the returned handle carries exactly that value. -/
theorem version_increment_mod_u16max {T : Type} {s : ResourceSlot T} {r : T}
    {s2 : ResourceSlot T} {id : GpuResourceId}
    (h : insertResource s r = some (s2, id)) (hpop : s.free_head ≠ SENTINEL) :
    ∃ ve, s.entries.get? s.free_head = some ve ∧
      (s2.entries.get? s.free_head).map (·.version) = some ((ve.version + 1) % U16MAX) ∧
      id = { index := s.free_head, version := (ve.version + 1) % U16MAX } := by
  rcases insertResource_inversion h with ⟨hfh, _⟩ | ⟨_, ve, next, hget, hfree, rfl, rfl⟩
  · exact absurd hfh hpop
  · refine ⟨ve, hget, ?_, rfl⟩
    show ((s.entries.set s.free_head _).get? s.free_head).map _ = _
    rw [List.get?_set_eq, hget]
    rfl

/-- Witness for the amended C5 at the fresh arena: the initial slot at
version 0 is popped, stored version and handle version both become 1. -/
theorem version_increment_mod_u16max_witness :
    ∃ ve, (newResourceSlot Unit).entries.get? (newResourceSlot Unit).free_head = some ve ∧
      ((({ entries := [{ entry := .occupied (), version := 1 }],
           free_head := SENTINEL } : ResourceSlot Unit)).entries.get?
          (newResourceSlot Unit).free_head).map (·.version) =
        some ((ve.version + 1) % U16MAX) ∧
      ({ index := 0, version := 1 } : GpuResourceId) =
        { index := (newResourceSlot Unit).free_head,
          version := (ve.version + 1) % U16MAX } :=
  version_increment_mod_u16max
    (show insertResource (newResourceSlot Unit) () =
        some ({ entries := [{ entry := .occupied (), version := 1 }],
                free_head := SENTINEL }, { index := 0, version := 1 }) by decide)
    (by decide)

/-! ## C6: handle uniqueness -/

/-- C6 counterexample: with unbounded reuse of slot 0 the handles repeat;
the insert of round 0 and the insert of round 65535 both return (0,1), so
the multiset of handles returned over the lifetime has a duplicate. -/
theorem handle_uniqueness_counterexample :
    (runArenaOpsLog (newResourceSlot Unit) [] (churnOps 65536)).map Prod.snd =
      some ((List.range 65536).map (fun k =>
        ({ index := 0, version := (k + 1) % U16MAX } : GpuResourceId))) ∧
    ¬ ((List.range 65536).map (fun k =>
        ({ index := 0, version := (k + 1) % U16MAX } : GpuResourceId))).Nodup := by
  constructor
  · rw [churn_closed_form 65536]
    simp only [Option.map_some']
  · intro hnd
    have h0 : (0 : Nat) ∈ List.range 65536 := List.mem_range.mpr (by norm_num)
    have h1 : (65535 : Nat) ∈ List.range 65536 := List.mem_range.mpr (by norm_num)
    have heq : ({ index := 0, version := (0 + 1) % U16MAX } : GpuResourceId) =
        { index := 0, version := (65535 + 1) % U16MAX } := by decide
    have := List.inj_on_of_nodup_map hnd h0 h1 heq
    exact absurd this (by norm_num)

/-! ## C6 (amended): uniqueness of handles under bounded per-slot reuse -/

/-- The splice loop only rewrites Free links: lengths and stored versions
are untouched. -/
theorem spliceWalk_versions {T : Type} {entries : List (ResourceVersionEntry T)} {idx : Nat} :
    ∀ (p fuel : Nat) (es : List (ResourceVersionEntry T)),
    spliceWalk entries idx p fuel = some es →
    es.length = entries.length ∧
    ∀ j, (es.get? j).map (·.version) = (entries.get? j).map (·.version) := by
  intro p fuel
  induction fuel generalizing p with
  | zero =>
    intro es h
    rw [spliceWalk] at h
    split at h
    · injection h with h2
      exact h2 ▸ ⟨rfl, fun j => rfl⟩
    · cases h
  | succ f ih =>
    intro es h
    rw [spliceWalk] at h
    split at h
    · injection h with h2
      exact h2 ▸ ⟨rfl, fun j => rfl⟩
    · split at h
      next => cases h
      next => cases h
      next nxt hfree =>
        split at h
        · injection h with h2
          subst h2
          constructor
          · rw [length_setEntryAt, length_setEntryAt]
          · intro j
            rw [version_setEntryAt, version_setEntryAt]
        · exact ih nxt es h

/-- remove_resource only moves entries between Occupied and Free: lengths
and stored versions are untouched. -/
theorem removeResource_versions {T : Type} {s : ResourceSlot T} {id : GpuResourceId}
    {s2 : ResourceSlot T} {r : T} (h : removeResource s id = some (s2, r)) :
    s2.entries.length = s.entries.length ∧
    ∀ j, (s2.entries.get? j).map (·.version) = (s.entries.get? j).map (·.version) := by
  obtain ⟨ve, hget, hver, hocc, hcase⟩ := removeResource_inversion h
  rcases hcase with ⟨hlt, rfl⟩ | ⟨hlt, hw, hfh⟩
  · exact ⟨length_setEntryAt _ _ _, fun j => version_setEntryAt _ _ _ _⟩
  · obtain ⟨hlen, hv⟩ := spliceWalk_versions _ _ _ hw
    constructor
    · rw [hlen, length_setEntryAt]
    · intro j
      rw [hv j, version_setEntryAt]

/-- The handle-log invariant: every logged handle addresses an existing
slot, and for every slot the versions handed out so far form an arithmetic
progression mod u16::MAX whose last element matches the stored version. -/
def HandleLogInv {T : Type} (s : ResourceSlot T) (log : List GpuResourceId) : Prop :=
  (∀ h ∈ log, h.index < s.entries.length) ∧
  ∀ i, i < s.entries.length →
    ∃ b n, b ≤ 1 ∧ 1 ≤ b + n ∧
      (log.filter (fun x => x.index == i)).map (·.version) =
        (List.range n).map (fun k => (b + k) % U16MAX) ∧
      (s.entries.get? i).map (·.version) = some ((b + n - 1) % U16MAX)

theorem handleLogInv_new (T : Type) : HandleLogInv (newResourceSlot T) [] := by
  refine ⟨fun h hmem => absurd hmem (List.not_mem_nil h), fun i hi => ?_⟩
  have hi0 : i = 0 := by
    simp only [newResourceSlot, List.length_cons, List.length_nil] at hi
    omega
  subst hi0
  exact ⟨1, 0, le_refl 1, by omega, rfl, rfl⟩

theorem handleLogInv_insert {T : Type} {s : ResourceSlot T} {r : T}
    {s2 : ResourceSlot T} {id : GpuResourceId} {log : List GpuResourceId}
    (h : insertResource s r = some (s2, id)) (hinv : HandleLogInv s log) :
    HandleLogInv s2 (log ++ [id]) := by
  obtain ⟨hbound, hslots⟩ := hinv
  rcases insertResource_inversion h with ⟨hfh, hl, rfl, rfl⟩ | ⟨hfh, ve, next, hget, hfree, rfl, rfl⟩
  · -- append branch: new slot at index length with version 0 and one handle
    constructor
    · intro x hx
      rcases List.mem_append.mp hx with hx | hx
      · have := hbound x hx
        show x.index < (s.entries ++ [_]).length
        rw [List.length_append]
        simp only [List.length_cons, List.length_nil]
        omega
      · rcases List.mem_singleton.mp hx with rfl
        show s.entries.length < (s.entries ++ [_]).length
        rw [List.length_append]
        simp only [List.length_cons, List.length_nil]
        omega
    · intro i hi
      replace hi : i < s.entries.length + 1 := by
        simpa using hi
      by_cases hcase : i < s.entries.length
      · obtain ⟨b, n, hb, hbn, hfilter, hver⟩ := hslots i hcase
        refine ⟨b, n, hb, hbn, ?_, ?_⟩
        · rw [List.filter_append, List.filter_cons_of_neg, List.filter_nil, List.append_nil]
          · exact hfilter
          · simp only [beq_iff_eq]
            omega
        · show ((s.entries ++
              [({ entry := ResourceEntry.occupied r, version := 0 } :
                ResourceVersionEntry T)]).get? i).map (·.version) = _
          rw [List.get?_append hcase]
          exact hver
      · have hieq : i = s.entries.length := by omega
        subst hieq
        refine ⟨0, 1, by omega, by omega, ?_, ?_⟩
        · rw [List.filter_append]
          rw [List.filter_eq_nil.mpr (fun a ha => ?_), List.filter_cons_of_pos (by simp)]
          · rfl
          · have := hbound a ha
            simp only [beq_iff_eq]
            omega
        · show ((s.entries ++
              [({ entry := ResourceEntry.occupied r, version := 0 } :
                ResourceVersionEntry T)]).get? s.entries.length).map (·.version) = _
          rw [List.get?_concat_length]
          rfl
  · -- pop branch: the free head slot gains one more handle at the bumped version
    have hfhlen : s.free_head < s.entries.length := (List.get?_eq_some.mp hget).1
    constructor
    · intro x hx
      rcases List.mem_append.mp hx with hx | hx
      · have := hbound x hx
        show x.index < (s.entries.set _ _).length
        simp only [List.length_set]
        omega
      · rcases List.mem_singleton.mp hx with rfl
        show s.free_head < (s.entries.set _ _).length
        simp only [List.length_set]
        omega
    · intro i hi
      simp only [List.length_set] at hi
      by_cases hcase : i = s.free_head
      · subst hcase
        obtain ⟨b, n, hb, hbn, hfilter, hver⟩ := hslots s.free_head hi
        have hvev : ve.version = (b + n - 1) % U16MAX := by
          rw [hget] at hver
          simp only [Option.map_some'] at hver
          injection hver
        have hnewv : (ve.version + 1) % U16MAX = (b + n) % U16MAX := by
          rw [hvev, Nat.mod_add_mod]
          congr 1
          omega
        refine ⟨b, n + 1, hb, by omega, ?_, ?_⟩
        · rw [List.filter_append, List.filter_cons_of_pos (by simp), List.filter_nil,
            List.map_append, hfilter, List.range_succ, List.map_append]
          rw [hnewv]
          rfl
        · have harith : b + (n + 1) - 1 = b + n := by omega
          show ((s.entries.set s.free_head
              ({ entry := ResourceEntry.occupied r, version := (ve.version + 1) % U16MAX } :
                ResourceVersionEntry T)).get? s.free_head).map (·.version) =
            some ((b + (n + 1) - 1) % U16MAX)
          rw [List.get?_set_eq, hget]
          show some ((ve.version + 1) % U16MAX) = some ((b + (n + 1) - 1) % U16MAX)
          rw [hnewv, harith]
      · obtain ⟨b, n, hb, hbn, hfilter, hver⟩ := hslots i hi
        refine ⟨b, n, hb, hbn, ?_, ?_⟩
        · rw [List.filter_append, List.filter_cons_of_neg, List.filter_nil, List.append_nil]
          · exact hfilter
          · simp only [beq_iff_eq]
            omega
        · show ((s.entries.set _ _).get? i).map (·.version) = _
          rw [List.get?_set_ne _ _ (fun he => hcase he.symm)]
          exact hver

theorem handleLogInv_remove {T : Type} {s : ResourceSlot T} {id : GpuResourceId}
    {s2 : ResourceSlot T} {r : T} {log : List GpuResourceId}
    (h : removeResource s id = some (s2, r)) (hinv : HandleLogInv s log) :
    HandleLogInv s2 log := by
  obtain ⟨hbound, hslots⟩ := hinv
  obtain ⟨hlen, hver⟩ := removeResource_versions h
  constructor
  · intro x hx
    rw [hlen]
    exact hbound x hx
  · intro i hi
    rw [hlen] at hi
    obtain ⟨b, n, hb, hbn, hfilter, hv⟩ := hslots i hi
    exact ⟨b, n, hb, hbn, hfilter, by rw [hver i]; exact hv⟩

theorem runArenaOpsLog_inv {T : Type} :
    ∀ (ops : List (ArenaOp T)) (s : ResourceSlot T) (log : List GpuResourceId)
      (s2 : ResourceSlot T) (log2 : List GpuResourceId),
    runArenaOpsLog s log ops = some (s2, log2) → HandleLogInv s log →
    HandleLogInv s2 log2 := by
  intro ops
  induction ops with
  | nil =>
    intro s log s2 log2 h hinv
    injection h with h2
    injection h2 with h3 h4
    exact h4 ▸ h3 ▸ hinv
  | cons op rest ih =>
    intro s log s2 log2 h hinv
    cases op with
    | insert r =>
      rw [runArenaOpsLog] at h
      cases hi : insertResource s r with
      | none =>
        rw [hi] at h
        cases h
      | some p =>
        obtain ⟨s1, id⟩ := p
        rw [hi] at h
        exact ih s1 (log ++ [id]) s2 log2 h (handleLogInv_insert hi hinv)
    | remove rid =>
      rw [runArenaOpsLog] at h
      cases hi : removeResource s rid with
      | none =>
        rw [hi] at h
        cases h
      | some p =>
        obtain ⟨s1, r⟩ := p
        rw [hi] at h
        exact ih s1 log s2 log2 h (handleLogInv_remove hi hinv)

/-- A list of handles is duplicate-free when its per-index filters are. -/
theorem nodup_of_nodup_filter_index (l : List GpuResourceId)
    (h : ∀ i, (l.filter (fun x => x.index == i)).Nodup) : l.Nodup := by
  induction l with
  | nil => exact List.nodup_nil
  | cons a t ih =>
    refine List.nodup_cons.mpr ⟨?_, ih (fun i => ?_)⟩
    · intro hmem
      have h2 := h a.index
      rw [List.filter_cons_of_pos (by simp)] at h2
      exact (List.nodup_cons.mp h2).1 (List.mem_filter.mpr ⟨hmem, by simp⟩)
    · have h2 := h i
      by_cases hp : a.index = i
      · rw [List.filter_cons_of_pos (by simp [hp])] at h2
        exact (List.nodup_cons.mp h2).2
      · rw [List.filter_cons_of_neg (by simp [hp])] at h2
        exact h2

/-- An arithmetic progression mod u16::MAX of at most u16::MAX terms has
no repeats. -/
theorem range_mod_nodup (b n : Nat) (hn : n ≤ U16MAX) :
    ((List.range n).map (fun k => (b + k) % U16MAX)).Nodup := by
  refine List.Nodup.map_on ?_ (List.nodup_range n)
  intro x hx y hy hxy
  rw [List.mem_range] at hx hy
  have hmx : x % U16MAX = x := Nat.mod_eq_of_lt (by omega)
  have hmy : y % U16MAX = y := Nat.mod_eq_of_lt (by omega)
  have h2 : x ≡ y [MOD U16MAX] := Nat.ModEq.add_left_cancel' b hxy
  unfold Nat.ModEq at h2
  omega

/-- C6 (amended): for any sequence of insert and remove operations from a
fresh arena, the handles returned by the inserts are pairwise distinct,
provided no single slot hands out more than u16::MAX = 65535 handles over
the lifetime (beyond that the 16-bit version wraps and handles repeat). -/
theorem handle_uniqueness_bounded (ops : List (ArenaOp Unit)) (s : ResourceSlot Unit)
    (log : List GpuResourceId)
    (h : runArenaOpsLog (newResourceSlot Unit) [] ops = some (s, log))
    (hbound : ∀ i, (log.filter (fun x => x.index == i)).length ≤ U16MAX) :
    log.Nodup := by
  obtain ⟨hidx, hslots⟩ := runArenaOpsLog_inv ops _ _ s log h (handleLogInv_new Unit)
  refine nodup_of_nodup_filter_index log (fun i => ?_)
  by_cases hi : i < s.entries.length
  · obtain ⟨b, n, hb, hbn, hfilter, hver⟩ := hslots i hi
    have hn : n ≤ U16MAX := by
      have h1 := congrArg List.length hfilter
      rw [List.length_map, List.length_map, List.length_range] at h1
      rw [← h1]
      exact hbound i
    exact List.Nodup.of_map _ (hfilter ▸ range_mod_nodup b n hn)
  · rw [List.filter_eq_nil.mpr (fun a ha => ?_)]
    · exact List.nodup_nil
    · have := hidx a ha
      simp only [beq_iff_eq]
      omega

/-- Witness for the amended C6: two inserts on the fresh arena return the
distinct handles (0,1) and (1,0). -/
theorem handle_uniqueness_bounded_witness :
    ([{ index := 0, version := 1 }, { index := 1, version := 0 }] :
      List GpuResourceId).Nodup :=
  handle_uniqueness_bounded [.insert (), .insert ()]
    { entries := [{ entry := .occupied (), version := 1 },
                  { entry := .occupied (), version := 0 }],
      free_head := SENTINEL }
    [{ index := 0, version := 1 }, { index := 1, version := 0 }]
    (by decide)
    (fun i => le_trans (List.length_filter_le _ _) (by decide))

/-! ## C2: the resource pool and its address table -/

/-- gpu_resources.rs Buffer, restricted to what the address-table claims
observe: the requested size and the GPU virtual address the driver
reported for the created buffer (the source queries it with
get_buffer_device_address right after inserting into the arena; both are
external inputs here). The vk handle, allocation, offset and debug name
play no role in the claims. -/
structure MBuffer where
  size : Nat
  address : Nat
  deriving DecidableEq, Repr

/-- The pool state for the buffer side: the buffers arena and the
persistently mapped address-table buffer, viewed as the u64 word stored
at byte offset 8*i for each entry index i. The source sizes the mapping
at MAX_BUFFERS entries; writes beyond it would be out of bounds in the
real program and no claim exercises them. -/
structure PoolState where
  buffers : ResourceSlot MBuffer
  addressTable : Nat → Nat

/-- GpuResourcePool::create_buffer: create the buffer (external), insert
it into the buffers arena, query its device address (external input
addr), write the address into the address table at the new slot index,
then return the id. -/
def createBuffer (p : PoolState) (size addr : Nat) : Option (PoolState × GpuResourceId) :=
  match insertResource p.buffers { size := size, address := addr } with
  | none => none
  | some (buffers2, id) =>
    some ({ buffers := buffers2,
            addressTable := fun i => if i = id.index then addr else p.addressTable i },
          id)

/-- GpuResourcePool::destroy_buffer: remove from the arena and tear down
the GPU objects; the address table is not touched. -/
def destroyBuffer (p : PoolState) (id : GpuResourceId) : Option PoolState :=
  match removeResource p.buffers id with
  | none => none
  | some (buffers2, _) => some { buffers := buffers2, addressTable := p.addressTable }

inductive PoolOp where
  | create (size addr : Nat)
  | destroy (id : GpuResourceId)

def runPoolOps : PoolState → List PoolOp → Option PoolState
  | p, [] => some p
  | p, .create size addr :: ops =>
    match createBuffer p size addr with
    | none => none
    | some (p2, _) => runPoolOps p2 ops
  | p, .destroy id :: ops =>
    match destroyBuffer p id with
    | none => none
    | some p2 => runPoolOps p2 ops

/-- A fresh pool: fresh arena, arbitrary initial table contents t0 (the
source leaves the mapped memory uninitialised). -/
def initialPool (t0 : Nat → Nat) : PoolState :=
  { buffers := newResourceSlot MBuffer, addressTable := t0 }

/-- The occupant of slot i, if the slot is in state Occupied. -/
def occupiedAt {T : Type} (s : ResourceSlot T) (i : Nat) : Option T :=
  match entryAt s.entries i with
  | some (.occupied r) => some r
  | _ => none

theorem occupiedAt_of_entryAt {T : Type} {s : ResourceSlot T} {i : Nat}
    {b : T} (h : entryAt s.entries i = some (.occupied b)) : occupiedAt s i = some b := by
  unfold occupiedAt
  rw [h]

theorem entryAt_of_occupiedAt {T : Type} {s : ResourceSlot T} {i : Nat}
    {b : T} (h : occupiedAt s i = some b) : entryAt s.entries i = some (.occupied b) := by
  unfold occupiedAt at h
  split at h
  next r heq =>
    injection h with h2
    exact h2 ▸ heq
  next => cases h

/-- Setting a Free entry cannot manufacture an occupant. -/
theorem occupied_of_setEntryAt_free {T : Type} {l : List (ResourceVersionEntry T)}
    {i x j : Nat} {b : T}
    (h : entryAt (setEntryAt l i (.free x)) j = some (.occupied b)) :
    entryAt l j = some (.occupied b) := by
  by_cases hij : i = j
  · subst hij
    by_cases hlen : i < l.length
    · rw [entryAt_setEntryAt_self _ hlen] at h
      cases h
    · unfold setEntryAt at h
      cases hg : l.get? i with
      | none => rw [hg] at h; exact h
      | some ve =>
        exact absurd (List.get?_eq_some.mp hg).1 hlen
  · rw [entryAt_setEntryAt_ne _ hij] at h
    exact h

/-- The splice loop only writes Free links: occupants trace back. -/
theorem spliceWalk_occupied {T : Type} {entries : List (ResourceVersionEntry T)} {idx : Nat} :
    ∀ (p fuel : Nat) (es : List (ResourceVersionEntry T)),
    spliceWalk entries idx p fuel = some es →
    ∀ j b, entryAt es j = some (.occupied b) → entryAt entries j = some (.occupied b) := by
  intro p fuel
  induction fuel generalizing p with
  | zero =>
    intro es h j b hj
    rw [spliceWalk] at h
    split at h
    · injection h with h2
      exact h2 ▸ hj
    · cases h
  | succ f ih =>
    intro es h j b hj
    rw [spliceWalk] at h
    split at h
    · injection h with h2
      exact h2 ▸ hj
    · split at h
      next => cases h
      next => cases h
      next nxt hfree =>
        split at h
        · injection h with h2
          subst h2
          exact occupied_of_setEntryAt_free (occupied_of_setEntryAt_free hj)
        · exact ih nxt es h j b hj

/-- Effect of a successful insert on occupancy: the returned slot holds
the new value, every other slot is unchanged. -/
theorem insertResource_occupiedAt {T : Type} {s : ResourceSlot T} {r : T}
    {s2 : ResourceSlot T} {id : GpuResourceId}
    (h : insertResource s r = some (s2, id)) :
    occupiedAt s2 id.index = some r ∧
    ∀ j, j ≠ id.index → occupiedAt s2 j = occupiedAt s j := by
  rcases insertResource_inversion h with ⟨hfh, hl, rfl, rfl⟩ | ⟨hfh, ve, next, hget, hfree, rfl, rfl⟩
  · constructor
    · refine occupiedAt_of_entryAt ?_
      show entryAt (s.entries ++ _) s.entries.length = _
      unfold entryAt
      rw [List.get?_concat_length]
      rfl
    · intro j hj
      replace hj : j ≠ s.entries.length := hj
      unfold occupiedAt entryAt
      by_cases hlt : j < s.entries.length
      · rw [List.get?_append hlt]
      · have h1 : (s.entries ++
            [({ entry := ResourceEntry.occupied r, version := 0 } :
              ResourceVersionEntry T)]).get? j = none := by
          rw [List.get?_eq_none]
          rw [List.length_append]
          simp only [List.length_cons, List.length_nil]
          omega
        have h2 : s.entries.get? j = none := by
          rw [List.get?_eq_none]
          omega
        rw [h1, h2]
  · have hfhlen : s.free_head < s.entries.length := (List.get?_eq_some.mp hget).1
    constructor
    · refine occupiedAt_of_entryAt ?_
      show entryAt (s.entries.set s.free_head _) s.free_head = _
      unfold entryAt
      rw [List.get?_set_eq, hget]
      rfl
    · intro j hj
      unfold occupiedAt entryAt
      rw [List.get?_set_ne _ _ (fun he => hj he.symm)]

/-- Effect of a successful remove on occupancy: occupants of the result
were already present. -/
theorem removeResource_occupiedAt {T : Type} {s : ResourceSlot T} {id : GpuResourceId}
    {s2 : ResourceSlot T} {r : T}
    (h : removeResource s id = some (s2, r)) :
    ∀ j b, occupiedAt s2 j = some b → occupiedAt s j = some b := by
  obtain ⟨ve, hget, hver, hocc, hcase⟩ := removeResource_inversion h
  rcases hcase with ⟨hlt, rfl⟩ | ⟨hlt, hw, hfh⟩
  · intro j b hj
    exact occupiedAt_of_entryAt (occupied_of_setEntryAt_free (entryAt_of_occupiedAt hj))
  · intro j b hj
    refine occupiedAt_of_entryAt
      (occupied_of_setEntryAt_free
        (spliceWalk_occupied _ _ _ hw j b (entryAt_of_occupiedAt hj)))

/-- The address-table coherence invariant. -/
def AddrCoherent (p : PoolState) : Prop :=
  ∀ i b, occupiedAt p.buffers i = some b → p.addressTable i = b.address

theorem createBuffer_coherent {p : PoolState} {size addr : Nat}
    {p2 : PoolState} {id : GpuResourceId}
    (h : createBuffer p size addr = some (p2, id)) (hinv : AddrCoherent p) :
    AddrCoherent p2 := by
  unfold createBuffer at h
  split at h
  next => cases h
  next buffers2 id2 hi =>
    injection h with h2
    injection h2 with h3 h4
    subst h3
    subst h4
    obtain ⟨hnew, hold⟩ := insertResource_occupiedAt hi
    intro i b hb
    show (if i = id2.index then addr else p.addressTable i) = b.address
    by_cases hc : i = id2.index
    · subst hc
      rw [if_pos rfl]
      rw [hnew] at hb
      injection hb with hb2
      rw [← hb2]
    · rw [if_neg hc]
      exact hinv i b ((hold i hc) ▸ hb)

theorem destroyBuffer_coherent {p : PoolState} {id : GpuResourceId} {p2 : PoolState}
    (h : destroyBuffer p id = some p2) (hinv : AddrCoherent p) : AddrCoherent p2 := by
  unfold destroyBuffer at h
  split at h
  next => cases h
  next buffers2 r hi =>
    injection h with h2
    subst h2
    intro i b hb
    exact hinv i b (removeResource_occupiedAt hi i b hb)

theorem runPoolOps_coherent :
    ∀ (ops : List PoolOp) (p p2 : PoolState),
    runPoolOps p ops = some p2 → AddrCoherent p → AddrCoherent p2 := by
  intro ops
  induction ops with
  | nil =>
    intro p p2 h hinv
    injection h with h2
    exact h2 ▸ hinv
  | cons op rest ih =>
    intro p p2 h hinv
    cases op with
    | create size addr =>
      rw [runPoolOps] at h
      split at h
      next => cases h
      next q id hc =>
        exact ih q p2 h (createBuffer_coherent hc hinv)
    | destroy id =>
      rw [runPoolOps] at h
      split at h
      next => cases h
      next q hc =>
        exact ih q p2 h (destroyBuffer_coherent hc hinv)

/-- C2. After any sequence of pool operations, every occupied buffer slot
i has addressTable i equal to its buffer's device address; and
create_buffer writes the new address at its slot index before returning
while leaving every other table entry unchanged. -/
theorem address_table_coherence :
    (∀ (t0 : Nat → Nat) (ops : List PoolOp) (p : PoolState),
      runPoolOps (initialPool t0) ops = some p →
      ∀ i b, occupiedAt p.buffers i = some b → p.addressTable i = b.address) ∧
    (∀ (p : PoolState) (size addr : Nat) (p2 : PoolState) (id : GpuResourceId),
      createBuffer p size addr = some (p2, id) →
      p2.addressTable id.index = addr ∧
      ∀ j, j ≠ id.index → p2.addressTable j = p.addressTable j) := by
  constructor
  · intro t0 ops p h
    refine runPoolOps_coherent ops (initialPool t0) p h ?_
    intro i b hb
    unfold occupiedAt at hb
    unfold initialPool newResourceSlot at hb
    cases hi : i with
    | zero => rw [hi] at hb; cases hb
    | succ k => rw [hi] at hb; cases hb
  · intro p size addr p2 id h
    unfold createBuffer at h
    split at h
    next => cases h
    next buffers2 id2 hi =>
      injection h with h2
      injection h2 with h3 h4
      subst h3
      subst h4
      constructor
      · show (if id2.index = id2.index then addr else p.addressTable id2.index) = addr
        rw [if_pos rfl]
      · intro j hj
        show (if j = id2.index then addr else p.addressTable j) = p.addressTable j
        rw [if_neg hj]

/-- Witness for C2: a single create_buffer of a size-64 buffer whose
reported device address is 100 lands in slot 0, and the table entry at
index 0 reads back 100. -/
theorem address_table_coherence_witness :
    ({ buffers := { entries := [{ entry := .occupied { size := 64, address := 100 },
                                  version := 1 }],
                    free_head := SENTINEL },
       addressTable := fun i => if i = 0 then 100 else (fun _ => 0) i } :
        PoolState).addressTable 0 =
      ({ size := 64, address := 100 } : MBuffer).address :=
  address_table_coherence.1 (fun _ => 0) [PoolOp.create 64 100]
    { buffers := { entries := [{ entry := .occupied { size := 64, address := 100 },
                                 version := 1 }],
                   free_head := SENTINEL },
      addressTable := fun i => if i = 0 then 100 else (fun _ => 0) i }
    (by rfl) 0 { size := 64, address := 100 } (by rfl)

/-! ## C1 and C7: the frame engine of device.rs -/

/-- A deferred-destroy item: a command recorder id (u32 in the source), a
buffer id or an image id. device.rs keeps one HashMap per kind. -/
inductive GItem where
  | recorder (id : Nat)
  | buffer (id : GpuResourceId)
  | image (id : GpuResourceId)
  deriving DecidableEq, Repr

/-- The frame-engine state of Device: the monotonic frame_index and the
three deferred-destruct maps keyed by frame index (HashMap<u64, Vec<_>>;
a missing key reads as the empty Vec, matching unwrap_or of a fresh Vec
and entry().or_default()). The destroyed list is the run's audit log of
reclamations: collect_garbage appends (G, bucket, item) for every item it
frees or destroys, where G is the timeline value that call read. -/
structure FrameState where
  frame_index : Nat
  deferred_destruct_recorders : Nat → List Nat
  deferred_destruct_buffers : Nat → List GpuResourceId
  deferred_destruct_images : Nat → List GpuResourceId
  destroyed : List (Nat × Nat × GItem)

/-- Device::new: frame_index 0, all maps empty. -/
def initFrameState : FrameState :=
  { frame_index := 0,
    deferred_destruct_recorders := fun _ => [],
    deferred_destruct_buffers := fun _ => [],
    deferred_destruct_images := fun _ => [],
    destroyed := [] }

/-- Point update of a map-as-function. -/
def update {α : Type} (f : Nat → List α) (k : Nat) (v : List α) : Nat → List α :=
  fun i => if i = k then v else f i

/-- Device::destroy_buffer_deferred: push into bucket frame_index + 1. -/
def destroyBufferDeferred (s : FrameState) (id : GpuResourceId) : FrameState :=
  { s with
    deferred_destruct_buffers :=
      update s.deferred_destruct_buffers (s.frame_index + 1)
        (s.deferred_destruct_buffers (s.frame_index + 1) ++ [id]) }

/-- Device::destroy_image_deferred: push into bucket frame_index + 1. -/
def destroyImageDeferred (s : FrameState) (id : GpuResourceId) : FrameState :=
  { s with
    deferred_destruct_images :=
      update s.deferred_destruct_images (s.frame_index + 1)
        (s.deferred_destruct_images (s.frame_index + 1) ++ [id]) }

/-- Device::submit, state effect: extend bucket frame_index + 1 with every
command list's recorder id and with the concatenation of their
deferred-delete buffer lists, issue the queue submit (external), then
increment frame_index. -/
def submit (s : FrameState) (recIds : List Nat) (bufIds : List GpuResourceId) : FrameState :=
  { s with
    deferred_destruct_recorders :=
      update s.deferred_destruct_recorders (s.frame_index + 1)
        (s.deferred_destruct_recorders (s.frame_index + 1) ++ recIds),
    deferred_destruct_buffers :=
      update s.deferred_destruct_buffers (s.frame_index + 1)
        (s.deferred_destruct_buffers (s.frame_index + 1) ++ bufIds),
    frame_index := s.frame_index + 1 }

/-- One iteration of the collect_garbage loop at bucket idx, with g the
timeline value the call read: drain the three maps at idx (recorders
freed, then buffers destroyed, then images), logging each reclamation. -/
def drainBucket (s : FrameState) (g idx : Nat) : FrameState :=
  { frame_index := s.frame_index,
    deferred_destruct_recorders := update s.deferred_destruct_recorders idx [],
    deferred_destruct_buffers := update s.deferred_destruct_buffers idx [],
    deferred_destruct_images := update s.deferred_destruct_images idx [],
    destroyed := s.destroyed ++
      ((s.deferred_destruct_recorders idx).map (fun i => (g, idx, GItem.recorder i)) ++
       (s.deferred_destruct_buffers idx).map (fun i => (g, idx, GItem.buffer i)) ++
       (s.deferred_destruct_images idx).map (fun i => (g, idx, GItem.image i))) }

/-- Device::collect_garbage: read the GPU timeline value g (external),
then for i in 0..3 drain the bucket at index max(g - i, 0); Nat
subtraction models the i64 max(.., 0) clamp of the source for every g
below 2^63. -/
def collectGarbage (s : FrameState) (g : Nat) : FrameState :=
  drainBucket (drainBucket (drainBucket s g (g - 0)) g (g - 1)) g (g - 2)

inductive DeviceOp where
  | destroyBufferDeferred (id : GpuResourceId)
  | destroyImageDeferred (id : GpuResourceId)
  | submit (recIds : List Nat) (bufIds : List GpuResourceId)
  | collectGarbage (g : Nat)
  deriving DecidableEq, Repr

def applyDeviceOp (s : FrameState) : DeviceOp → FrameState
  | .destroyBufferDeferred id => destroyBufferDeferred s id
  | .destroyImageDeferred id => destroyImageDeferred s id
  | .submit recIds bufIds => submit s recIds bufIds
  | .collectGarbage g => collectGarbage s g

def runDeviceOps (s : FrameState) : List DeviceOp → FrameState
  | [] => s
  | op :: ops => runDeviceOps (applyDeviceOp s op) ops

/-- All items sitting in bucket j. -/
def bucketItems (s : FrameState) (j : Nat) : List GItem :=
  (s.deferred_destruct_recorders j).map GItem.recorder ++
  (s.deferred_destruct_buffers j).map GItem.buffer ++
  (s.deferred_destruct_images j).map GItem.image

/-- The items an operation enqueues for deferred destruction. -/
def opEnqueues : DeviceOp → List GItem
  | .destroyBufferDeferred id => [GItem.buffer id]
  | .destroyImageDeferred id => [GItem.image id]
  | .submit recIds bufIds => recIds.map GItem.recorder ++ bufIds.map GItem.buffer
  | .collectGarbage _ => []

/-- Item x entered bucket j during the trace: the trace splits around an
operation that enqueues x at a point where the state's frame_index was
j - 1 (every enqueue targets bucket frame_index + 1). -/
def EnqueuedAt (s0 : FrameState) (ops : List DeviceOp) (j : Nat) (x : GItem) : Prop :=
  ∃ t1 op t2, ops = t1 ++ op :: t2 ∧ x ∈ opEnqueues op ∧
    (runDeviceOps s0 t1).frame_index + 1 = j

/-! ### Frame-engine helper lemmas -/

theorem enqueuedAt_cons {s0 : FrameState} {op : DeviceOp} {rest : List DeviceOp}
    {j : Nat} {x : GItem} (h : EnqueuedAt (applyDeviceOp s0 op) rest j x) :
    EnqueuedAt s0 (op :: rest) j x := by
  obtain ⟨t1, op2, t2, hsplit, hmem, hframe⟩ := h
  exact ⟨op :: t1, op2, t2, by rw [hsplit, List.cons_append], hmem, hframe⟩

theorem mem_bucketItems_destroyBufferDeferred {s : FrameState} {id : GpuResourceId}
    {j : Nat} {x : GItem} (h : x ∈ bucketItems (destroyBufferDeferred s id) j) :
    x ∈ bucketItems s j ∨
      (j = s.frame_index + 1 ∧ x ∈ opEnqueues (.destroyBufferDeferred id)) := by
  by_cases hj : j = s.frame_index + 1
  · subst hj
    simp only [bucketItems, destroyBufferDeferred, update, eq_self_iff_true, ite_true,
      List.map_append, List.map_cons, List.map_nil, List.mem_append] at h
    simp only [bucketItems, opEnqueues, List.mem_append, eq_self_iff_true, true_and]
    tauto
  · simp only [bucketItems, destroyBufferDeferred, update, if_neg hj] at h
    exact Or.inl h

theorem mem_bucketItems_destroyImageDeferred {s : FrameState} {id : GpuResourceId}
    {j : Nat} {x : GItem} (h : x ∈ bucketItems (destroyImageDeferred s id) j) :
    x ∈ bucketItems s j ∨
      (j = s.frame_index + 1 ∧ x ∈ opEnqueues (.destroyImageDeferred id)) := by
  by_cases hj : j = s.frame_index + 1
  · subst hj
    simp only [bucketItems, destroyImageDeferred, update, eq_self_iff_true, ite_true,
      List.map_append, List.map_cons, List.map_nil, List.mem_append] at h
    simp only [bucketItems, opEnqueues, List.mem_append, eq_self_iff_true, true_and]
    tauto
  · simp only [bucketItems, destroyImageDeferred, update, if_neg hj] at h
    exact Or.inl h

theorem mem_bucketItems_submit {s : FrameState} {recIds : List Nat}
    {bufIds : List GpuResourceId} {j : Nat} {x : GItem}
    (h : x ∈ bucketItems (submit s recIds bufIds) j) :
    x ∈ bucketItems s j ∨
      (j = s.frame_index + 1 ∧ x ∈ opEnqueues (.submit recIds bufIds)) := by
  by_cases hj : j = s.frame_index + 1
  · subst hj
    simp only [bucketItems, submit, update, eq_self_iff_true, ite_true,
      List.map_append, List.mem_append] at h
    simp only [bucketItems, opEnqueues, List.mem_append, eq_self_iff_true, true_and]
    tauto
  · simp only [bucketItems, submit, update, if_neg hj] at h
    exact Or.inl h

theorem mem_bucketItems_drainBucket {s : FrameState} {g idx j : Nat} {x : GItem}
    (h : x ∈ bucketItems (drainBucket s g idx) j) : x ∈ bucketItems s j := by
  by_cases hj : j = idx
  · subst hj
    simp only [bucketItems, drainBucket, update, eq_self_iff_true, ite_true,
      List.map_nil, List.mem_append] at h
    simp at h
  · simp only [bucketItems, drainBucket, update, if_neg hj] at h
    exact h

theorem mem_bucketItems_collectGarbage {s : FrameState} {g j : Nat} {x : GItem}
    (h : x ∈ bucketItems (collectGarbage s g) j) : x ∈ bucketItems s j :=
  mem_bucketItems_drainBucket
    (mem_bucketItems_drainBucket (mem_bucketItems_drainBucket h))

theorem mem_destroyed_drainBucket {s : FrameState} {g idx : Nat}
    {G j : Nat} {x : GItem} (h : (G, j, x) ∈ (drainBucket s g idx).destroyed) :
    (G, j, x) ∈ s.destroyed ∨ (G = g ∧ j = idx ∧ x ∈ bucketItems s idx) := by
  unfold drainBucket at h
  simp only [List.mem_append, List.mem_map] at h
  rcases h with h | h
  · exact Or.inl h
  · rcases h with (⟨i, hi, he⟩ | ⟨i, hi, he⟩) | ⟨i, hi, he⟩
    · injection he with h1 h2
      injection h2 with h3 h4
      refine Or.inr ⟨h1.symm, h3.symm, ?_⟩
      subst h4
      unfold bucketItems
      exact List.mem_append_left _ (List.mem_append_left _ (List.mem_map_of_mem _ hi))
    · injection he with h1 h2
      injection h2 with h3 h4
      refine Or.inr ⟨h1.symm, h3.symm, ?_⟩
      subst h4
      unfold bucketItems
      exact List.mem_append_left _ (List.mem_append_right _ (List.mem_map_of_mem _ hi))
    · injection he with h1 h2
      injection h2 with h3 h4
      refine Or.inr ⟨h1.symm, h3.symm, ?_⟩
      subst h4
      unfold bucketItems
      exact List.mem_append_right _ (List.mem_map_of_mem _ hi)

theorem mem_destroyed_collectGarbage {s : FrameState} {g : Nat}
    {G j : Nat} {x : GItem} (h : (G, j, x) ∈ (collectGarbage s g).destroyed) :
    (G, j, x) ∈ s.destroyed ∨ (G = g ∧ j ≤ g ∧ x ∈ bucketItems s j) := by
  unfold collectGarbage at h
  rcases mem_destroyed_drainBucket h with h2 | ⟨rfl, rfl, hmem⟩
  · rcases mem_destroyed_drainBucket h2 with h3 | ⟨rfl, rfl, hmem⟩
    · rcases mem_destroyed_drainBucket h3 with h4 | ⟨rfl, rfl, hmem⟩
      · exact Or.inl h4
      · exact Or.inr ⟨rfl, by omega, hmem⟩
    · exact Or.inr ⟨rfl, by omega, mem_bucketItems_drainBucket hmem⟩
  · exact Or.inr ⟨rfl, by omega,
      mem_bucketItems_drainBucket (mem_bucketItems_drainBucket hmem)⟩

theorem frame_index_applyDeviceOp (s : FrameState) (op : DeviceOp) :
    s.frame_index ≤ (applyDeviceOp s op).frame_index := by
  cases op with
  | destroyBufferDeferred id => exact le_refl _
  | destroyImageDeferred id => exact le_refl _
  | submit recIds bufIds => exact Nat.le_succ _
  | collectGarbage g => exact le_refl _

/-- Bucket contents trace back to the start state or to an enqueueing op
of the trace. -/
theorem bucketItems_run :
    ∀ (ops : List DeviceOp) (s0 : FrameState) (j : Nat) (x : GItem),
    x ∈ bucketItems (runDeviceOps s0 ops) j →
    x ∈ bucketItems s0 j ∨ EnqueuedAt s0 ops j x := by
  intro ops
  induction ops with
  | nil =>
    intro s0 j x h
    exact Or.inl h
  | cons op rest ih =>
    intro s0 j x h
    rw [runDeviceOps] at h
    rcases ih (applyDeviceOp s0 op) j x h with h2 | h2
    · cases op with
      | destroyBufferDeferred id =>
        rcases mem_bucketItems_destroyBufferDeferred h2 with hl | ⟨hj, hx⟩
        · exact Or.inl hl
        · exact Or.inr ⟨[], _, rest, rfl, hx, hj.symm⟩
      | destroyImageDeferred id =>
        rcases mem_bucketItems_destroyImageDeferred h2 with hl | ⟨hj, hx⟩
        · exact Or.inl hl
        · exact Or.inr ⟨[], _, rest, rfl, hx, hj.symm⟩
      | submit recIds bufIds =>
        rcases mem_bucketItems_submit h2 with hl | ⟨hj, hx⟩
        · exact Or.inl hl
        · exact Or.inr ⟨[], _, rest, rfl, hx, hj.symm⟩
      | collectGarbage g =>
        exact Or.inl (mem_bucketItems_collectGarbage h2)
    · exact Or.inr (enqueuedAt_cons h2)

/-- Every reclamation logged during a run was tagged with a bucket index
at most the timeline value the reclaiming call read, and its item either
sat in a bucket already or was enqueued by an op of the trace. -/
theorem destroyed_run :
    ∀ (ops : List DeviceOp) (s0 : FrameState) (G j : Nat) (x : GItem),
    (G, j, x) ∈ (runDeviceOps s0 ops).destroyed →
    (G, j, x) ∈ s0.destroyed ∨
      (j ≤ G ∧ (x ∈ bucketItems s0 j ∨ EnqueuedAt s0 ops j x)) := by
  intro ops
  induction ops with
  | nil =>
    intro s0 G j x h
    exact Or.inl h
  | cons op rest ih =>
    intro s0 G j x h
    rw [runDeviceOps] at h
    rcases ih (applyDeviceOp s0 op) G j x h with h2 | ⟨hle, h3⟩
    · cases op with
      | destroyBufferDeferred id => exact Or.inl h2
      | destroyImageDeferred id => exact Or.inl h2
      | submit recIds bufIds => exact Or.inl h2
      | collectGarbage g =>
        rcases mem_destroyed_collectGarbage h2 with h4 | ⟨rfl, hle, hmem⟩
        · exact Or.inl h4
        · exact Or.inr ⟨hle, Or.inl hmem⟩
    · rcases h3 with hmem | henq
      · cases op with
        | destroyBufferDeferred id =>
          rcases mem_bucketItems_destroyBufferDeferred hmem with hl | ⟨hj, hx⟩
          · exact Or.inr ⟨hle, Or.inl hl⟩
          · exact Or.inr ⟨hle, Or.inr ⟨[], _, rest, rfl, hx, hj.symm⟩⟩
        | destroyImageDeferred id =>
          rcases mem_bucketItems_destroyImageDeferred hmem with hl | ⟨hj, hx⟩
          · exact Or.inr ⟨hle, Or.inl hl⟩
          · exact Or.inr ⟨hle, Or.inr ⟨[], _, rest, rfl, hx, hj.symm⟩⟩
        | submit recIds bufIds =>
          rcases mem_bucketItems_submit hmem with hl | ⟨hj, hx⟩
          · exact Or.inr ⟨hle, Or.inl hl⟩
          · exact Or.inr ⟨hle, Or.inr ⟨[], _, rest, rfl, hx, hj.symm⟩⟩
        | collectGarbage g =>
          exact Or.inr ⟨hle, Or.inl (mem_bucketItems_collectGarbage hmem)⟩
      · exact Or.inr ⟨hle, Or.inr (enqueuedAt_cons henq)⟩

theorem bucketItems_drainBucket_ne {s : FrameState} {g idx j : Nat} (h : j ≠ idx) :
    bucketItems (drainBucket s g idx) j = bucketItems s j := by
  simp only [bucketItems, drainBucket, update, if_neg h]

theorem bucketItems_drainBucket_self (s : FrameState) (g idx : Nat) :
    bucketItems (drainBucket s g idx) idx = [] := by
  simp [bucketItems, drainBucket, update]

/-- C1. A resource enqueued into bucket k+1 (while cpu_frame_index = k) is
reclaimed only by a collect_garbage call that read a timeline value
G ≥ k+1: every logged reclamation (G, j, x) has j ≤ G and x was enqueued
by an op of the trace at a state with frame_index = j - 1. Moreover a
collect_garbage call reading g leaves every bucket other than g, g-1, g-2
(clamped at 0) unchanged, empties exactly those, and tags every new
reclamation with that call's g and one of those three indices. -/
theorem deferred_reclamation_window :
    (∀ (ops : List DeviceOp) (G j : Nat) (x : GItem),
      (G, j, x) ∈ (runDeviceOps initFrameState ops).destroyed →
      j ≤ G ∧ EnqueuedAt initFrameState ops j x) ∧
    (∀ (s : FrameState) (g j : Nat),
      j ≠ g - 0 → j ≠ g - 1 → j ≠ g - 2 →
      bucketItems (collectGarbage s g) j = bucketItems s j) ∧
    (∀ (s : FrameState) (g : Nat),
      bucketItems (collectGarbage s g) (g - 0) = [] ∧
      bucketItems (collectGarbage s g) (g - 1) = [] ∧
      bucketItems (collectGarbage s g) (g - 2) = []) ∧
    (∀ (s : FrameState) (g G j : Nat) (x : GItem),
      (G, j, x) ∈ (collectGarbage s g).destroyed →
      (G, j, x) ∈ s.destroyed ∨ (G = g ∧ (j = g - 0 ∨ j = g - 1 ∨ j = g - 2))) := by
  refine ⟨?_, ?_, ?_, ?_⟩
  · intro ops G j x h
    rcases destroyed_run ops initFrameState G j x h with h2 | ⟨hle, h3⟩
    · exact absurd h2 (List.not_mem_nil _)
    · rcases h3 with hmem | henq
      · exact absurd hmem (by simp [bucketItems, initFrameState])
      · exact ⟨hle, henq⟩
  · intro s g j h0 h1 h2
    unfold collectGarbage
    rw [bucketItems_drainBucket_ne h2, bucketItems_drainBucket_ne h1,
      bucketItems_drainBucket_ne h0]
  · intro s g
    refine ⟨?_, ?_, ?_⟩
    · by_cases h02 : g - 0 = g - 2
      · rw [show collectGarbage s g =
            drainBucket (drainBucket (drainBucket s g (g - 0)) g (g - 1)) g (g - 2) from rfl,
          ← h02, bucketItems_drainBucket_self]
      · by_cases h01 : g - 0 = g - 1
        · exact absurd (by omega : g - 0 = g - 2) h02
        · unfold collectGarbage
          rw [bucketItems_drainBucket_ne (by omega), bucketItems_drainBucket_ne (by omega),
            bucketItems_drainBucket_self]
    · by_cases h12 : g - 1 = g - 2
      · rw [show collectGarbage s g =
            drainBucket (drainBucket (drainBucket s g (g - 0)) g (g - 1)) g (g - 2) from rfl,
          ← h12, bucketItems_drainBucket_self]
      · unfold collectGarbage
        rw [bucketItems_drainBucket_ne (by omega), bucketItems_drainBucket_self]
    · unfold collectGarbage
      rw [bucketItems_drainBucket_self]
  · intro s g G j x h
    rcases mem_destroyed_drainBucket h with h2 | ⟨rfl, rfl, _⟩
    · rcases mem_destroyed_drainBucket h2 with h3 | ⟨rfl, rfl, _⟩
      · rcases mem_destroyed_drainBucket h3 with h4 | ⟨rfl, rfl, _⟩
        · exact Or.inl h4
        · exact Or.inr ⟨rfl, Or.inl rfl⟩
      · exact Or.inr ⟨rfl, Or.inr (Or.inl rfl)⟩
    · exact Or.inr ⟨rfl, Or.inr (Or.inr rfl)⟩

/-- Witness for C1: submit a command list with one deferred-delete buffer
(bucket 1), then collect at timeline value 1; the reclamation is tagged
(G, bucket) = (1, 1) with 1 ≤ 1, and the buffer traces to the submit. -/
theorem deferred_reclamation_window_witness :
    1 ≤ 1 ∧ EnqueuedAt initFrameState
      [DeviceOp.submit [] [{ index := 0, version := 0 }], DeviceOp.collectGarbage 1]
      1 (GItem.buffer { index := 0, version := 0 }) :=
  deferred_reclamation_window.1
    [DeviceOp.submit [] [{ index := 0, version := 0 }], DeviceOp.collectGarbage 1]
    1 1 (GItem.buffer { index := 0, version := 0 }) (by decide)

/-! ## C7: submit semantics and frame monotonicity -/

/-- The externally visible steps of Device::submit in source order
(device.rs: record recorder ids at frame_index + 1, record deferred-delete
buffers at frame_index + 1, queue_submit, frame_index += 1). -/
inductive SubmitEvent where
  | recordDeferredRecorders (bucket : Nat) (ids : List Nat)
  | recordDeferredBuffers (bucket : Nat) (ids : List GpuResourceId)
  | queueSubmit
  | incrementFrameIndex
  deriving DecidableEq, Repr

/-- The event sequence a single Device::submit call performs. -/
def submitTrace (s : FrameState) (recIds : List Nat) (bufIds : List GpuResourceId) :
    List SubmitEvent :=
  [ SubmitEvent.recordDeferredRecorders (s.frame_index + 1) recIds,
    SubmitEvent.recordDeferredBuffers (s.frame_index + 1) bufIds,
    SubmitEvent.queueSubmit,
    SubmitEvent.incrementFrameIndex ]

/-- C7. cpu_frame_index is non-decreasing over the device's lifetime and
each submit increases it by exactly one; within a submit, the queue submit
(event index 2) strictly precedes the frame increment (event index 3),
and the deferred items are recorded into bucket frame_index + 1 with
frame_index read before the increment. -/
theorem frame_monotonic_and_submit :
    (∀ (s : FrameState) (more : List DeviceOp),
      s.frame_index ≤ (runDeviceOps s more).frame_index) ∧
    (∀ (s : FrameState) (recIds : List Nat) (bufIds : List GpuResourceId),
      (submit s recIds bufIds).frame_index = s.frame_index + 1 ∧
      (submit s recIds bufIds).deferred_destruct_recorders (s.frame_index + 1) =
        s.deferred_destruct_recorders (s.frame_index + 1) ++ recIds ∧
      (submit s recIds bufIds).deferred_destruct_buffers (s.frame_index + 1) =
        s.deferred_destruct_buffers (s.frame_index + 1) ++ bufIds ∧
      (submitTrace s recIds bufIds).get? 2 = some SubmitEvent.queueSubmit ∧
      (submitTrace s recIds bufIds).get? 3 = some SubmitEvent.incrementFrameIndex ∧
      (2 : Nat) < 3 ∧
      (∀ e ∈ submitTrace s recIds bufIds,
        (∀ b ids, e = SubmitEvent.recordDeferredRecorders b ids →
          b = s.frame_index + 1) ∧
        (∀ b ids, e = SubmitEvent.recordDeferredBuffers b ids →
          b = s.frame_index + 1))) := by
  constructor
  · intro s more
    induction more generalizing s with
    | nil => exact le_refl _
    | cons op rest ih =>
      rw [runDeviceOps]
      exact le_trans (frame_index_applyDeviceOp s op) (ih (applyDeviceOp s op))
  · intro s recIds bufIds
    refine ⟨rfl, ?_, ?_, rfl, rfl, by omega, ?_⟩
    · show update s.deferred_destruct_recorders (s.frame_index + 1) _ (s.frame_index + 1) = _
      unfold update
      rw [if_pos rfl]
    · show update s.deferred_destruct_buffers (s.frame_index + 1) _ (s.frame_index + 1) = _
      unfold update
      rw [if_pos rfl]
    · intro e he
      simp only [submitTrace, List.mem_cons, List.not_mem_nil, or_false] at he
      rcases he with rfl | rfl | rfl | rfl
      · constructor
        · intro b ids h
          injection h with h1 h2
          exact h1.symm
        · intro b ids h
          exact SubmitEvent.noConfusion h
      · constructor
        · intro b ids h
          exact SubmitEvent.noConfusion h
        · intro b ids h
          injection h with h1 h2
          exact h1.symm
      · exact ⟨fun b ids h => SubmitEvent.noConfusion h,
          fun b ids h => SubmitEvent.noConfusion h⟩
      · exact ⟨fun b ids h => SubmitEvent.noConfusion h,
          fun b ids h => SubmitEvent.noConfusion h⟩

/-- Witness for C7 at a concrete trace of one submit. -/
theorem frame_monotonic_and_submit_witness :
    initFrameState.frame_index ≤
      (runDeviceOps initFrameState [DeviceOp.submit [] []]).frame_index :=
  frame_monotonic_and_submit.1 initFrameState [DeviceOp.submit [] []]

/-! ## C8: Swapchain::acquire_next_image -/

/-- The outcomes the source matches on for the external
acquire-next-image call: SUCCESS with an image index, OUT_OF_DATE,
SUBOPTIMAL, or any other result (which panics). -/
inductive AcquireResult where
  | success (imageIndex : Nat)
  | outOfDate
  | suboptimal
  | otherError
  deriving DecidableEq, Repr

/-- The swapchain state the acquire path touches: adopted image ids, the
semaphore-ring length max_frames_in_flight, cpu_timeline, and
last_aquired_image_index (spelled as in the source). -/
structure SwapchainState where
  images : List GpuResourceId
  maxFramesInFlight : Nat
  cpuTimeline : Nat
  lastAquiredImageIndex : Option Nat
  deriving DecidableEq, Repr

/-- The index of the acquire semaphore the call signals
(swapchain.rs: (cpu_timeline + 1) % max_frames_in_flight). -/
def acquireSemaphoreIndex (s : SwapchainState) : Nat :=
  (s.cpuTimeline + 1) % s.maxFramesInFlight

/-- Swapchain::acquire_next_image given the external result r: stash the
index (or None), on success bump cpu_timeline and return the image id at
the index; on OUT_OF_DATE or SUBOPTIMAL return None without bumping;
other results panic. Selecting the acquire semaphore indexes the ring at
(cpu_timeline + 1) % max_frames_in_flight before the call, which panics
when the ring is empty — hence the guard. The timeline-semaphore read at
the top of the source function feeds only a commented-out println and is
dropped. -/
def acquireNextImage (s : SwapchainState) (r : AcquireResult) :
    Option (SwapchainState × Option GpuResourceId) :=
  if s.maxFramesInFlight = 0 then none
  else
    match r with
    | .success idx =>
      match s.images.get? idx with
      | none => none
      | some img =>
        some ({ s with
                  lastAquiredImageIndex := some idx,
                  cpuTimeline := s.cpuTimeline + 1 },
              some img)
    | .outOfDate => some ({ s with lastAquiredImageIndex := none }, none)
    | .suboptimal => some ({ s with lastAquiredImageIndex := none }, none)
    | .otherError => none

/-- C8. When the underlying call reports SUBOPTIMAL or OUT_OF_DATE,
acquire_next_image returns None and leaves cpu_timeline unchanged; on
SUCCESS it stores the image index in last_aquired, increments
cpu_timeline by one, and returns Some image id. -/
theorem acquire_next_image_spec :
    (∀ (s : SwapchainState) (r : AcquireResult), 0 < s.maxFramesInFlight →
      (r = AcquireResult.outOfDate ∨ r = AcquireResult.suboptimal) →
      acquireNextImage s r = some ({ s with lastAquiredImageIndex := none }, none) ∧
      ({ s with lastAquiredImageIndex := none } : SwapchainState).cpuTimeline =
        s.cpuTimeline) ∧
    (∀ (s : SwapchainState) (idx : Nat) (img : GpuResourceId),
      0 < s.maxFramesInFlight → s.images.get? idx = some img →
      acquireNextImage s (AcquireResult.success idx) =
        some ({ s with
                  lastAquiredImageIndex := some idx,
                  cpuTimeline := s.cpuTimeline + 1 }, some img)) := by
  constructor
  · intro s r hN hr
    have hne : ¬ s.maxFramesInFlight = 0 := by omega
    rcases hr with rfl | rfl
    · exact ⟨by rw [acquireNextImage, if_neg hne], rfl⟩
    · exact ⟨by rw [acquireNextImage, if_neg hne], rfl⟩
  · intro s idx img hN hget
    have hne : ¬ s.maxFramesInFlight = 0 := by omega
    rw [acquireNextImage, if_neg hne]
    simp only [hget]

/-- Witness for C8: a two-frame swapchain with one image; OUT_OF_DATE
leaves the timeline at 5 and returns None. -/
theorem acquire_next_image_spec_witness :
    acquireNextImage
        { images := [{ index := 0, version := 1 }], maxFramesInFlight := 2,
          cpuTimeline := 5, lastAquiredImageIndex := some 0 } AcquireResult.outOfDate =
      some ({ images := [{ index := 0, version := 1 }], maxFramesInFlight := 2,
              cpuTimeline := 5, lastAquiredImageIndex := none }, none) ∧
    ({ images := [{ index := 0, version := 1 }], maxFramesInFlight := 2,
       cpuTimeline := 5, lastAquiredImageIndex := none } : SwapchainState).cpuTimeline =
      5 :=
  acquire_next_image_spec.1
    { images := [{ index := 0, version := 1 }], maxFramesInFlight := 2,
      cpuTimeline := 5, lastAquiredImageIndex := some 0 }
    AcquireResult.outOfDate (by decide) (Or.inl rfl)

/-! ## C9: Device::new physical-device selection -/

/-- One step of Rust's Iterator::max_by on the mapped keys: keep the
current maximum unless the new element's key is at least as large — among
equal keys the later element wins. -/
def maxStep {α : Type} (score : α → Int) (acc : Option α) (x : α) : Option α :=
  match acc with
  | none => some x
  | some m => if score x < score m then some m else some x

/-- Rust's Iterator::max_by_key over the enumeration: a left fold of
maxStep from None. -/
def maxByKeyLast {α : Type} (score : α → Int) (l : List α) : Option α :=
  l.foldl (maxStep score) none

/-- Device::new's physical-device choice: physical devices are opaque
handles (Nat); score composes get_physical_device_properties with the
caller's selector (i32). -/
def selectPhysicalDevice (devices : List Nat) (score : Nat → Int) : Option Nat :=
  maxByKeyLast score devices

/-- C9 counterexample: two devices with equal scores; max_by_key returns
the LAST equally maximal element, so the second device is selected, not
the first as the claim states. -/
theorem device_selection_counterexample :
    selectPhysicalDevice [0, 1] (fun _ => 0) = some 1 ∧ (1 : Nat) ≠ 0 := by
  constructor
  · rfl
  · decide

/-- Folding from an occupied accumulator: the result is the accumulator or
the last maximal element of the list. -/
theorem maxStep_foldl_spec {α : Type} (score : α → Int) :
    ∀ (l : List α) (m : α),
    ∃ d, List.foldl (maxStep score) (some m) l = some d ∧
      score m ≤ score d ∧ (∀ x ∈ l, score x ≤ score d) ∧
      ((d = m ∧ ∀ x ∈ l, score x < score d) ∨
       ∃ l1 l2, l = l1 ++ d :: l2 ∧ ∀ x ∈ l2, score x < score d) := by
  intro l
  induction l with
  | nil =>
    intro m
    exact ⟨m, rfl, le_refl _, fun x hx => absurd hx (List.not_mem_nil x),
      Or.inl ⟨rfl, fun x hx => absurd hx (List.not_mem_nil x)⟩⟩
  | cons x t ih =>
    intro m
    have hstep : maxStep score (some m) x =
        if score x < score m then some m else some x := rfl
    by_cases hx : score x < score m
    · obtain ⟨d, hfold, hmd, hall, hdisj⟩ := ih m
      refine ⟨d, ?_, hmd, ?_, ?_⟩
      · rw [List.foldl_cons, hstep, if_pos hx]
        exact hfold
      · intro y hy
        rcases List.mem_cons.mp hy with rfl | hy
        · exact le_trans (le_of_lt hx) hmd
        · exact hall y hy
      · rcases hdisj with ⟨rfl, hlt⟩ | ⟨l1, l2, rfl, hlt⟩
        · refine Or.inl ⟨rfl, fun y hy => ?_⟩
          rcases List.mem_cons.mp hy with rfl | hy
          · exact hx
          · exact hlt y hy
        · exact Or.inr ⟨x :: l1, l2, rfl, hlt⟩
    · obtain ⟨d, hfold, hxd, hall, hdisj⟩ := ih x
      have hmx : score m ≤ score x := by omega
      refine ⟨d, ?_, le_trans hmx hxd, ?_, ?_⟩
      · rw [List.foldl_cons, hstep, if_neg hx]
        exact hfold
      · intro y hy
        rcases List.mem_cons.mp hy with rfl | hy
        · exact hxd
        · exact hall y hy
      · rcases hdisj with ⟨rfl, hlt⟩ | ⟨l1, l2, heq, hlt⟩
        · exact Or.inr ⟨[], t, rfl, hlt⟩
        · exact Or.inr ⟨x :: l1, l2, by rw [heq, List.cons_append], hlt⟩

/-- C9 (amended): for every non-empty enumeration, Device::new selects a
device of maximal selector score, and among equally maximal devices it
selects the LAST in enumeration order (every device after the chosen one
scores strictly lower). -/
theorem device_selection_max_last (devices : List Nat) (score : Nat → Int)
    (h : devices ≠ []) :
    ∃ d l1 l2, selectPhysicalDevice devices score = some d ∧
      devices = l1 ++ d :: l2 ∧
      (∀ x ∈ devices, score x ≤ score d) ∧
      (∀ x ∈ l2, score x < score d) := by
  cases devices with
  | nil => exact absurd rfl h
  | cons x t =>
    obtain ⟨d, hfold, hxd, hall, hdisj⟩ := maxStep_foldl_spec score t x
    refine ⟨d, ?_⟩
    have hsel : selectPhysicalDevice (x :: t) score = some d := by
      unfold selectPhysicalDevice maxByKeyLast
      rw [List.foldl_cons]
      exact hfold
    have hmem : ∀ y ∈ x :: t, score y ≤ score d := by
      intro y hy
      rcases List.mem_cons.mp hy with rfl | hy
      · exact hxd
      · exact hall y hy
    rcases hdisj with ⟨rfl, hlt⟩ | ⟨l1, l2, heq, hlt⟩
    · exact ⟨[], t, hsel, rfl, hmem, hlt⟩
    · exact ⟨x :: l1, l2, hsel, by rw [heq, List.cons_append], hmem, hlt⟩

/-- A concrete selector for the C9 witness. -/
def exampleScore (n : Nat) : Int := n

/-- Witness for the amended C9 on a concrete two-device enumeration. -/
theorem device_selection_max_last_witness :
    ∃ d l1 l2, selectPhysicalDevice [4, 7] exampleScore = some d ∧
      [4, 7] = l1 ++ d :: l2 ∧
      (∀ x ∈ [4, 7], exampleScore x ≤ exampleScore d) ∧
      (∀ x ∈ l2, exampleScore x < exampleScore d) :=
  device_selection_max_last [4, 7] exampleScore (by decide)

/-! ## C10: swapchain-adopted images on resize and drop -/

/-- common.rs ImageUsageFlags, restricted to the bits needs_view reads
(transfer bits never influence the lifecycle paths modelled here). -/
structure MImageUsage where
  sampled : Bool
  storage : Bool
  colorAttachment : Bool
  depthStencilAttachment : Bool
  inputAttachment : Bool
  deriving DecidableEq, Repr

/-- ImageUsageFlags::needs_view. -/
def needsView (u : MImageUsage) : Bool :=
  u.sampled || u.storage || u.colorAttachment || u.depthStencilAttachment ||
    u.inputAttachment

/-- device.rs Image, restricted to what the lifecycle claim observes. -/
structure MImage where
  handle : Nat
  view : Bool
  hasAllocation : Bool
  isSwapchainImage : Bool
  deriving DecidableEq, Repr

/-- GpuResourcePool::create_image with an existing (adopted) swapchain
image handle: no allocation is made, a view is created iff the usage
needs one, is_swapchain_image is set, and the image is inserted into the
images arena. -/
def createSwapchainImage (pool : ResourceSlot MImage) (h : Nat) (usage : MImageUsage) :
    Option (ResourceSlot MImage × GpuResourceId) :=
  insertResource pool
    { handle := h, view := needsView usage, hasAllocation := false,
      isSwapchainImage := true }

/-- Swapchain::resize, pool effect: adopt every image of the new vk
swapchain into the pool and overwrite the swapchain's id list with the
new ids. The source performs no destroy_image (and no view destruction)
for the previously adopted ids; they stay in the arena. -/
def resizeSwapchain (pool : ResourceSlot MImage) (newHandles : List Nat)
    (usage : MImageUsage) : Option (ResourceSlot MImage × List GpuResourceId) :=
  newHandles.foldl (fun acc h =>
    match acc with
    | none => none
    | some (p, ids) =>
      match createSwapchainImage p h usage with
      | none => none
      | some (p2, id) => some (p2, ids ++ [id])) (some (pool, []))

/-- Swapchain::drop, pool effect: it waits for idle and destroys the vk
swapchain and the surface only; the resource pool and the adopted image
entries are untouched. -/
def dropSwapchain (pool : ResourceSlot MImage) : ResourceSlot MImage := pool

/-- The external destroy calls GpuResourcePool::destroy_image_raw makes. -/
inductive DestroyCall where
  | destroyImageView
  | destroyVkImage (handle : Nat)
  | freeAllocation
  deriving DecidableEq, Repr

/-- destroy_image_raw: destroy the view if present, destroy the VkImage
only for non-swapchain images, free the allocation if present. -/
def destroyImageRaw (img : MImage) : List DestroyCall :=
  (if img.view then [DestroyCall.destroyImageView] else []) ++
  (if img.isSwapchainImage then [] else [DestroyCall.destroyVkImage img.handle]) ++
  (if img.hasAllocation then [DestroyCall.freeAllocation] else [])

/-- The adopted image record for a swapchain image with handle h and a
usage that needs a view. -/
def adoptedImage (h : Nat) : MImage :=
  { handle := h, view := true, hasAllocation := false, isSwapchainImage := true }

/-- A typical swapchain usage: color attachment. -/
def swapUsage : MImageUsage :=
  { sampled := false, storage := false, colorAttachment := true,
    depthStencilAttachment := false, inputAttachment := false }

/-- The image arena after adopting handle 7 into a fresh pool. -/
def poolAfterAdopt : ResourceSlot MImage :=
  { entries := [{ entry := .occupied (adoptedImage 7), version := 1 }],
    free_head := SENTINEL }

/-- The image arena after the resize additionally adopts handle 8. -/
def poolAfterResize : ResourceSlot MImage :=
  { entries := [{ entry := .occupied (adoptedImage 7), version := 1 },
                { entry := .occupied (adoptedImage 8), version := 0 }],
    free_head := SENTINEL }

/-- C10, evaluated at the failing input: adopt one swapchain image
(handle 7, color-attachment usage) into a fresh pool, then resize to a
new one-image swapchain (handle 8). The pre-resize image id (0,1) is
still occupied in the pool with its view alive, and dropSwapchain leaves
the pool unchanged — the swapchain never removes adopted images on resize
or drop, contradicting the claim. (The parenthetical half of the claim is
code-accurate: destroy_image_raw on a swapchain image never emits a
vkDestroyImage for the platform-owned handle.) -/
theorem swapchain_resize_leaves_adopted_images :
    createSwapchainImage (newResourceSlot MImage) 7 swapUsage =
      some (poolAfterAdopt, { index := 0, version := 1 }) ∧
    resizeSwapchain poolAfterAdopt [8] swapUsage =
      some (poolAfterResize, [{ index := 1, version := 0 }]) ∧
    getResource poolAfterResize { index := 0, version := 1 } = some (adoptedImage 7) ∧
    dropSwapchain poolAfterResize = poolAfterResize ∧
    destroyImageRaw (adoptedImage 7) = [DestroyCall.destroyImageView] := by
  refine ⟨by decide, by decide, by decide, rfl, by decide⟩

end Paya
